import Mathlib

/-!
Shallow embedding of the extractor registry and execution engine of
`src/extractors/base/extractor.registry.ts` (together with the contract types of
`src/extractors/base/extractor.interface.ts`), and proofs of the spec's claims
about it.

Modelling conventions:
* JavaScript `Map<string, RegisteredExtractor>` becomes an insertion-ordered
  association list `List (String × RegisteredExtractor)` (JS maps preserve
  insertion order and have unique keys).
* `Partial<T>` objects become structures of `Option` fields: `none` models an
  absent key, and the spread `{...a, ...b}` becomes a field-wise `Option.getD`.
* An async `extract` call is modelled by its observable behaviour: it resolves
  with a result after some number of milliseconds, rejects with a thrown value
  after some number of milliseconds, or never settles.
* A thrown JavaScript value is either an `Error` object (carrying a message) or
  a non-`Error` value; promise rejection is modelled with `Except`.
* Wall-clock readings (`Date.now()`, `new Date()`) are supplied as explicit
  parameters, since the model has no ambient clock.
-/

namespace LifelogEmail

/-- An open-ended `Record<string, any>` settings map, modelled as an ordered
association list of string keys and (opaque, string-modelled) values. -/
abbrev Settings := List (String × String)

/-- `ExtractorConfig` from `extractor.interface.ts`: `enabled`, numeric
`priority`, and an optional `settings` map. -/
structure ExtractorConfig where
  enabled : Bool
  priority : Int
  settings : Option Settings
deriving DecidableEq, Repr

/-- `Partial<ExtractorConfig>`: each key may be absent. The outer `Option` on
`settings` models key presence; the inner one models the optional value. -/
structure ConfigPatch where
  enabled : Option Bool
  priority : Option Int
  settings : Option (Option Settings)
deriving DecidableEq, Repr

/-- The empty partial configuration `{}` (also stands for spreading
`undefined`, which is a no-op). -/
def ConfigPatch.empty : ConfigPatch := ⟨none, none, none⟩

/-- One step of the object spread `{...base, ...p}`: any key present in `p`
overwrites the corresponding key of `base` wholesale. -/
def mergeConfig (base : ExtractorConfig) (p : ConfigPatch) : ExtractorConfig :=
  { enabled := p.enabled.getD base.enabled
    priority := p.priority.getD base.priority
    settings := p.settings.getD base.settings }

/-- `Env` from `src/types.ts` (the Cloudflare KV binding is inert for the core
and is not modelled). -/
structure Env where
  OPENAI_API_KEY : String
  TIMEZONE : String
  LIMITLESS_API_KEY : String
  FROM_EMAIL : String
  TO_EMAIL : String
  RESEND_API_KEY : String
deriving DecidableEq, Repr

/-- The block type of a `LifelogContent` node from `src/types.ts`. -/
inductive ContentType
  | heading1
  | heading2
  | blockquote
deriving DecidableEq, Repr

/-- A content node of a lifelog (`LifelogContent` from `src/types.ts`);
children are flattened away since the core never inspects them. -/
structure LifelogContent where
  type : ContentType
  content : String
  startTime : String
  endTime : String
  startOffsetMs : Int
  endOffsetMs : Int
  speakerName : Option String
deriving DecidableEq, Repr

/-- A transcript record (`Lifelog` from `src/types.ts`). The registry treats
these as opaque beyond counting them. -/
structure Lifelog where
  id : String
  title : String
  markdown : String
  startTime : String
  endTime : String
  contents : List LifelogContent
deriving DecidableEq, Repr

/-- Optional metadata of an `ExtractorResult`. -/
structure ResultMetadata where
  processingTime : Option Nat
  logCount : Option Nat
  warnings : Option (List String)
  custom : Option Settings
deriving DecidableEq, Repr

/-- `ExtractorResult` from `extractor.interface.ts`: rendered HTML, plain text,
and optional metadata. -/
structure ExtractorResult where
  html : String
  text : String
  metadata : Option ResultMetadata
deriving DecidableEq, Repr

/-- A thrown JavaScript value: an `Error` object carrying a message, or any
non-`Error` value (e.g. `throw "boom"`). -/
inductive Thrown
  | errObj (message : String)
  | nonError
deriving DecidableEq, Repr

/-- `error instanceof Error ? error.message : 'Unknown error'`. -/
def Thrown.toMessage : Thrown → String
  | .errObj m => m
  | .nonError => "Unknown error"

/-- `error instanceof Error ? error : undefined`, keeping the `Error`'s
message. -/
def Thrown.toOriginal : Thrown → Option String
  | .errObj m => some m
  | .nonError => none

/-- The `context` object built for an `ExtractorError` at
`extractor.registry.ts:210-213`. -/
structure ErrorContext where
  logCount : Nat
  timestamp : String
deriving DecidableEq, Repr

/-- `ExtractorError` from `extractor.interface.ts`, as constructed by
`executeExtractor` (`extractor.registry.ts:206-214`). -/
structure ExtractorError where
  extractorId : String
  message : String
  originalError : Option String
  context : ErrorContext
deriving DecidableEq, Repr

/-- Observable behaviour of one `extract(...)` invocation: the returned promise
resolves after `duration` ms, rejects after `duration` ms, or never settles.
A synchronous throw is a rejection with duration 0. -/
inductive ExtractBehavior
  | resolves (result : ExtractorResult) (duration : Nat)
  | rejects (thrown : Thrown) (duration : Nat)
  | hangs

/-- `BaseExtractor` from `extractor.interface.ts`. `validateConfig` returns
`true | string`; we model `true` as `none` and an error reason as `some`.
The optional `initialize` method is the field `init`: absent, or a function
from the environment to `none` (resolves) or a thrown value (rejects). -/
structure BaseExtractor where
  id : String
  name : String
  description : String
  version : String
  defaultConfig : ExtractorConfig
  extract : List Lifelog → Env → ExtractorConfig → ExtractBehavior
  validateConfig : ExtractorConfig → Option String
  init : Option (Env → Option Thrown)

/-- A dynamically-typed value passed to `register`, before the duck-typed shape
check: each required contract member may be missing (or of the wrong type),
which is modelled as `none`. -/
structure ExtractorCandidate where
  idVal : Option String
  nameVal : Option String
  descriptionVal : Option String
  versionVal : Option String
  defaultConfigVal : Option ExtractorConfig
  extractVal : Option (List Lifelog → Env → ExtractorConfig → ExtractBehavior)
  validateConfigVal : Option (ExtractorConfig → Option String)
  initVal : Option (Env → Option Thrown)

/-- `isBaseExtractor` from `extractor.interface.ts:571-583`: the duck-typed
capability check (presence of string `id`/`name`/`description`/`version`,
object `defaultConfig`, functions `extract` and `validateConfig`; the optional
`initialize` is not checked). -/
def isBaseExtractor (o : ExtractorCandidate) : Bool :=
  o.idVal.isSome && o.nameVal.isSome && o.descriptionVal.isSome &&
  o.versionVal.isSome && o.defaultConfigVal.isSome && o.extractVal.isSome &&
  o.validateConfigVal.isSome

/-- View a candidate that passed the shape check as a `BaseExtractor`; the
defaults are never reached on candidates satisfying `isBaseExtractor`. -/
def toBase (o : ExtractorCandidate) : BaseExtractor :=
  { id := o.idVal.getD ""
    name := o.nameVal.getD ""
    description := o.descriptionVal.getD ""
    version := o.versionVal.getD ""
    defaultConfig := o.defaultConfigVal.getD ⟨true, 0, none⟩
    extract := o.extractVal.getD (fun _ _ _ => .hangs)
    validateConfig := o.validateConfigVal.getD (fun _ => none)
    init := o.initVal }

/-- Wrap a well-typed extractor as the candidate every field of which is
present. -/
def BaseExtractor.toCandidate (x : BaseExtractor) : ExtractorCandidate :=
  ⟨some x.id, some x.name, some x.description, some x.version,
   some x.defaultConfig, some x.extract, some x.validateConfig, x.init⟩

/-- `RegistryConfig` from `extractor.registry.ts:18-27`. -/
structure RegistryConfig where
  maxConcurrency : Nat
  extractorTimeout : Nat
  continueOnError : Bool
  globalConfig : Option ConfigPatch

/-- The defaults installed by the `ExtractorRegistry` constructor
(`extractor.registry.ts:77-84`). -/
def defaultRegistryConfig : RegistryConfig :=
  { maxConcurrency := 5, extractorTimeout := 30000, continueOnError := true
    globalConfig := none }

/-- `RegisteredExtractor` from `extractor.registry.ts:58-67`; `registeredAt`
is a clock reading supplied at registration time. -/
structure RegisteredExtractor where
  extractor : BaseExtractor
  config : ExtractorConfig
  initialized : Bool
  registeredAt : Nat

/-- The registry state: the insertion-ordered id-keyed map of registered
units, the registry configuration, and the registry-wide `initialized` flag. -/
structure ExtractorRegistry where
  extractors : List (String × RegisteredExtractor)
  config : RegistryConfig
  initialized : Bool

/-- A fresh registry with the given configuration. -/
def ExtractorRegistry.new (cfg : RegistryConfig) : ExtractorRegistry :=
  { extractors := [], config := cfg, initialized := false }

/-- `this.extractors.has(id)`. -/
def ExtractorRegistry.hasId (r : ExtractorRegistry) (id : String) : Bool :=
  r.extractors.any (fun p => p.1 == id)

/-- The three-layer shallow merge performed at `extractor.registry.ts:102-106`:
`{...extractor.defaultConfig, ...this.config.globalConfig, ...config}`. -/
def effectiveConfig (r : ExtractorRegistry) (x : BaseExtractor)
    (cfg : Option ConfigPatch) : ExtractorConfig :=
  mergeConfig (mergeConfig x.defaultConfig (r.config.globalConfig.getD ConfigPatch.empty))
    (cfg.getD ConfigPatch.empty)

/-- `ExtractorRegistry.register` (`extractor.registry.ts:92-123`): shape check,
duplicate-id check, three-layer merge, validation, then append. Failure is a
thrown `Error`, modelled as `Except.error` carrying the message; the input
registry is untouched on failure. -/
def ExtractorRegistry.register (r : ExtractorRegistry) (o : ExtractorCandidate)
    (cfg : Option ConfigPatch) (now : Nat) : Except String ExtractorRegistry :=
  if !isBaseExtractor o then
    .error "Invalid extractor: must implement BaseExtractor interface"
  else
    let x := toBase o
    if r.hasId x.id then
      .error ("Extractor with id '" ++ x.id ++ "' is already registered")
    else
      let finalConfig := effectiveConfig r x cfg
      match x.validateConfig finalConfig with
      | some reason =>
        .error ("Invalid configuration for extractor '" ++ x.id ++ "': " ++ reason)
      | none =>
        .ok { r with
              extractors := r.extractors ++
                [(x.id, { extractor := x, config := finalConfig,
                          initialized := false, registeredAt := now })] }

/-- One row of `getRegisteredExtractors()`
(`extractor.registry.ts:248-266`). -/
structure ExtractorInfo where
  id : String
  name : String
  description : String
  version : String
  config : ExtractorConfig
  initialized : Bool
  registeredAt : Nat
deriving DecidableEq, Repr

/-- `getRegisteredExtractors()` (`extractor.registry.ts:257-265`). -/
def ExtractorRegistry.getRegisteredExtractors (r : ExtractorRegistry) :
    List ExtractorInfo :=
  r.extractors.map (fun p =>
    { id := p.2.extractor.id, name := p.2.extractor.name
      description := p.2.extractor.description, version := p.2.extractor.version
      config := p.2.config, initialized := p.2.initialized
      registeredAt := p.2.registeredAt })

/-- Well-formedness maintained by the `Map`: keys are unique and each entry is
keyed by its extractor's id (how `register` stores it). -/
def ExtractorRegistry.WF (r : ExtractorRegistry) : Prop :=
  (r.extractors.map Prod.fst).Nodup ∧ ∀ p ∈ r.extractors, p.1 = p.2.extractor.id

instance (r : ExtractorRegistry) : Decidable r.WF := by
  unfold ExtractorRegistry.WF
  exact instDecidableAnd

/-! ## The per-unit initialization pass (`extractor.registry.ts:152-167`) -/

/-- One unit's slice of the registry-wide `initialize` pass: if the unit has an
`initialize` method and its flag is still false, invoke it (recording the
invocation) and set the flag on success; the first component is the updated
record, the second the list of invoked ids, the third the rejection if any. -/
def initUnit (env : Env) (k : String) (reg : RegisteredExtractor) :
    RegisteredExtractor × List String × Option Thrown :=
  match reg.extractor.init with
  | some f =>
    if reg.initialized then (reg, [], none)
    else
      match f env with
      | none => ({ reg with initialized := true }, [k], none)
      | some t => (reg, [k], some t)
  | none => (reg, [], none)

/-- The pass over all registered units: entry-wise `initUnit`, concatenating
invocation traces and keeping the first rejection (the whole `Promise.all`
rejects, but flags already set by successful units persist). -/
def initUnits (env : Env) :
    List (String × RegisteredExtractor) →
    List (String × RegisteredExtractor) × List String × Option Thrown
  | [] => ([], [], none)
  | (k, reg) :: rest =>
    let this := initUnit env k reg
    let next := initUnits env rest
    ((k, this.1) :: next.1, this.2.1 ++ next.2.1,
     match this.2.2 with
     | some t => some t
     | none => next.2.2)

/-- `ExtractorRegistry.initialize` (`extractor.registry.ts:152-167`): run every
unit's optional `initialize`, then set the registry-wide flag only when no unit
rejected. Returns the updated registry, the ids whose `initialize` was invoked,
and the rejection (if any) that `Promise.all` surfaced. -/
def ExtractorRegistry.initAll (r : ExtractorRegistry) (env : Env) :
    ExtractorRegistry × List String × Option Thrown :=
  let passed := initUnits env r.extractors
  match passed.2.2 with
  | none => ({ r with extractors := passed.1, initialized := true }, passed.2.1, none)
  | some t => ({ r with extractors := passed.1 }, passed.2.1, some t)

/-! ## Timeout wrapper and per-unit execution -/

/-- The message of the rejection produced by the timer at
`extractor.registry.ts:321`. -/
def timeoutMessage (timeoutMs : Nat) : String :=
  "Execution timed out after " ++ toString timeoutMs ++ "ms"

/-- `executeWithTimeout` (`extractor.registry.ts:315-334`): race the wrapped
behaviour against a timer of `timeoutMs` milliseconds. The function wins only
if it settles strictly before the timer fires; otherwise the promise rejects
with the timeout `Error`. -/
def executeWithTimeout (b : ExtractBehavior) (timeoutMs : Nat) :
    Except Thrown ExtractorResult :=
  match b with
  | .resolves r d =>
    if d < timeoutMs then .ok r else .error (.errObj (timeoutMessage timeoutMs))
  | .rejects t d =>
    if d < timeoutMs then .error t else .error (.errObj (timeoutMessage timeoutMs))
  | .hangs => .error (.errObj (timeoutMessage timeoutMs))

/-- When the wrapped promise settles, in ms after admission: the extract
duration when it beats the timer, `timeoutMs` when the timer fires first. -/
def taskDuration (timeoutMs : Nat) : ExtractBehavior → Nat
  | .resolves _ d => min d timeoutMs
  | .rejects _ d => min d timeoutMs
  | .hangs => timeoutMs

/-- One element of the `results` array
(`extractor.registry.ts:34-37, 201-204`). -/
structure ResultEntry where
  extractorId : String
  result : ExtractorResult
deriving DecidableEq, Repr

/-- The `summary` object of a `RegistryExecutionResult`
(`extractor.registry.ts:41-52`). -/
structure ExecutionSummary where
  totalTime : Nat
  totalExtractors : Nat
  successCount : Nat
  errorCount : Nat
  disabledCount : Nat
deriving DecidableEq, Repr

/-- `RegistryExecutionResult` (`extractor.registry.ts:32-53`). -/
structure RegistryExecutionResult where
  results : List ResultEntry
  errors : List ExtractorError
  summary : ExecutionSummary
deriving DecidableEq, Repr

/-- The `ExtractorError` constructed for a unit whose wrapped execution
rejected with `t` (`extractor.registry.ts:206-214`). -/
def mkExtractorError (id : String) (t : Thrown) (logCount : Nat)
    (nowIso : String) : ExtractorError :=
  { extractorId := id, message := t.toMessage, originalError := t.toOriginal
    context := { logCount := logCount, timestamp := nowIso } }

/-! ## Priority ordering -/

/-- Insert into a descending-sorted list, after all entries of priority
greater than or equal to the inserted one. -/
def insertByPriority (x : RegisteredExtractor) :
    List RegisteredExtractor → List RegisteredExtractor
  | [] => [x]
  | y :: ys =>
    if y.config.priority < x.config.priority then x :: y :: ys
    else y :: insertByPriority x ys

/-- Stable descending sort by `config.priority`, modelling
`Array.prototype.sort` with comparator `(a, b) => b.config.priority -
a.config.priority` (stable since ES2019); equal priorities keep their relative
order. -/
def sortByPriorityDesc (l : List RegisteredExtractor) : List RegisteredExtractor :=
  l.foldl (fun acc x => insertByPriority x acc) []

/-- The enabled units in admission order: filter to `config.enabled`, sort
descending by priority (`extractor.registry.ts:185-187`). -/
def ExtractorRegistry.enabledSorted (r : ExtractorRegistry) :
    List RegisteredExtractor :=
  sortByPriorityDesc ((r.extractors.map Prod.snd).filter (fun reg => reg.config.enabled))

/-! ## Execution -/

/-- The per-unit loop of `execute` (`executeExtractor`,
`extractor.registry.ts:192-222`), processed in admission order: a settled
`executeWithTimeout` either appends to `results` or appends an
`ExtractorError` to `errors`; when `continueOnError` is false the first
rejection is re-thrown, abandoning the report. The third accumulator records
each `extract` invocation, in order. -/
def runUnits (lifelogs : List Lifelog) (env : Env) (timeoutMs : Nat)
    (continueOnError : Bool) (nowIso : String) :
    List RegisteredExtractor → List ResultEntry → List ExtractorError →
    List String →
    Except Thrown (List ResultEntry × List ExtractorError × List String)
  | [], results, errors, calls => .ok (results, errors, calls)
  | reg :: rest, results, errors, calls =>
    let calls := calls ++ [reg.extractor.id]
    match executeWithTimeout (reg.extractor.extract lifelogs env reg.config) timeoutMs with
    | .ok result =>
      runUnits lifelogs env timeoutMs continueOnError nowIso rest
        (results ++ [{ extractorId := reg.extractor.id, result := result }]) errors calls
    | .error t =>
      if continueOnError then
        runUnits lifelogs env timeoutMs continueOnError nowIso rest
          results (errors ++ [mkExtractorError reg.extractor.id t lifelogs.length nowIso]) calls
      else
        .error t

/-- The body of `execute` after the implicit initialization
(`extractor.registry.ts:180-242`): selection and ordering of enabled units,
the per-unit loop, and the summary. -/
def executeCore (r1 : ExtractorRegistry) (lifelogs : List Lifelog) (env : Env)
    (wallTime : Nat) (nowIso : String) :
    Except Thrown (ExtractorRegistry × RegistryExecutionResult × List String) :=
  match runUnits lifelogs env r1.config.extractorTimeout
      r1.config.continueOnError nowIso r1.enabledSorted [] [] [] with
  | .error t => .error t
  | .ok (results, errors, calls) =>
    .ok (r1,
      { results := results, errors := errors
        summary :=
          { totalTime := wallTime, totalExtractors := r1.extractors.length
            successCount := results.length, errorCount := errors.length
            disabledCount := r1.extractors.length - r1.enabledSorted.length } },
      calls)

/-- `ExtractorRegistry.execute` (`extractor.registry.ts:175-243`): implicit
initialization when needed, then `executeCore`. `wallTime` stands for the
wall-clock `Date.now()` difference recorded as `summary.totalTime`, `nowIso`
for `new Date().toISOString()`. A normal completion returns the updated
registry, the execution report, and the admission-ordered trace of `extract`
invocations; a rejection is `Except.error` — no report reaches the caller. -/
def ExtractorRegistry.execute (r : ExtractorRegistry) (lifelogs : List Lifelog)
    (env : Env) (wallTime : Nat) (nowIso : String) :
    Except Thrown (ExtractorRegistry × RegistryExecutionResult × List String) :=
  if r.initialized then executeCore r lifelogs env wallTime nowIso
  else
    let inited := r.initAll env
    match inited.2.2 with
    | some t => .error t
    | none => executeCore inited.1 lifelogs env wallTime nowIso

/-- The ids of the successful entries of a report. -/
def resultIds (report : RegistryExecutionResult) : List String :=
  report.results.map ResultEntry.extractorId

/-- The ids of the error entries of a report. -/
def errorIds (report : RegistryExecutionResult) : List String :=
  report.errors.map ExtractorError.extractorId

/-! ## The concurrency-bounded scheduler (`executeConcurrently`,
`extractor.registry.ts:339-364`)

`executeConcurrently` admits tasks one by one in list order; after each
admission, if the in-flight set has reached `maxConcurrency`, it awaits
`Promise.race` over the set, which resumes once the earliest-settling in-flight
promise settles (that promise removes itself from the set in its `finally`
before the race continuation runs). After the loop it awaits the remaining
promises. We model this as a deterministic event trace of admissions and
settlements, driven by each task's settle delay. -/

/-- An observable scheduling event of one `execute` call. -/
inductive SchedEvent
  | start (id : String)
  | settle (id : String)
deriving DecidableEq, Repr

/-- A task handed to `executeConcurrently`: a unit id and the delay after
admission at which its wrapped promise settles. -/
structure SimTask where
  id : String
  finishAfter : Nat
deriving DecidableEq, Repr

/-- Select the in-flight entry with the least absolute finish time (the one
`Promise.race` observes first), earliest-admitted winning ties; returns it and
the remaining entries in admission order. -/
def pickEarliest : (String × Nat) → List (String × Nat) →
    (String × Nat) × List (String × Nat)
  | x, [] => (x, [])
  | x, y :: ys =>
    if y.2 < x.2 then
      let picked := pickEarliest y ys
      (picked.1, x :: picked.2)
    else
      let picked := pickEarliest x ys
      (picked.1, y :: picked.2)

/-- Insert into an ascending-by-finish-time sorted list, keeping earlier
entries first on ties. -/
def insertByFinish (x : String × Nat) : List (String × Nat) → List (String × Nat)
  | [] => [x]
  | y :: ys => if x.2 < y.2 then x :: y :: ys else y :: insertByFinish x ys

/-- Stable ascending sort by finish time. -/
def sortByFinish (l : List (String × Nat)) : List (String × Nat) :=
  l.foldl (fun acc x => insertByFinish x acc) []

/-- The trailing `await Promise.all(executing)`: the remaining in-flight
promises settle in finish-time order. -/
def drainAll (l : List (String × Nat)) : List SchedEvent :=
  (sortByFinish l).map (fun z => SchedEvent.settle z.1)

/-- The admission loop of `executeConcurrently`: `queue` are the not yet
admitted tasks, `inflight` the admitted, unsettled ones paired with their
absolute finish times, `time` the current clock. Each iteration admits one
task; when the in-flight set reaches `maxConcurrency` the loop blocks until
the earliest in-flight settlement. -/
def schedLoop (maxConcurrency : Nat) :
    List SimTask → List (String × Nat) → Nat → List SchedEvent
  | [], inflight, _ => drainAll inflight
  | t :: rest, inflight, time =>
    SchedEvent.start t.id ::
      (if maxConcurrency ≤ inflight.length + 1 then
        let w :=
          match inflight with
          | [] => ((t.id, time + t.finishAfter), ([] : List (String × Nat)))
          | z :: zs => pickEarliest z (zs ++ [(t.id, time + t.finishAfter)])
        SchedEvent.settle w.1.1 :: schedLoop maxConcurrency rest w.2 w.1.2
      else
        schedLoop maxConcurrency rest (inflight ++ [(t.id, time + t.finishAfter)]) time)

/-- The scheduling trace of one `execute` call that runs to completion: the
enabled units in admission order, each with the settle delay of its wrapped
task, driven through `executeConcurrently`'s admission loop. -/
def ExtractorRegistry.executeSchedule (r : ExtractorRegistry)
    (lifelogs : List Lifelog) (env : Env) : List SchedEvent :=
  schedLoop r.config.maxConcurrency
    (r.enabledSorted.map (fun reg =>
      { id := reg.extractor.id
        finishAfter := taskDuration r.config.extractorTimeout
          (reg.extractor.extract lifelogs env reg.config) }))
    [] 0

/-- The ids admitted by a trace, in order. -/
def startedIds : List SchedEvent → List String
  | [] => []
  | SchedEvent.start id :: rest => id :: startedIds rest
  | SchedEvent.settle _ :: rest => startedIds rest

/-- Starting from `n` units in flight, is the number of in-flight units bounded
by `m` at every point of the trace? -/
def inflightBounded (m : Nat) : Nat → List SchedEvent → Bool
  | _, [] => true
  | n, SchedEvent.start _ :: rest =>
    decide (n + 1 ≤ m) && inflightBounded m (n + 1) rest
  | n, SchedEvent.settle _ :: rest => inflightBounded m (n - 1) rest

/-- Does the trace still contain a task admission? -/
def hasStart : List SchedEvent → Bool
  | [] => false
  | SchedEvent.start _ :: _ => true
  | SchedEvent.settle _ :: rest => hasStart rest

/-- The check made right after a settlement: either the next event is an
admission, or no admission happens at all afterwards. -/
def headOk : List SchedEvent → Bool
  | SchedEvent.start _ :: _ => true
  | SchedEvent.settle _ :: rest => !hasStart rest
  | [] => true

/-- Sliding-window admission: immediately after every settlement, if any task
remains to be admitted, the very next event is its admission. -/
def settleFreesSlot : List SchedEvent → Bool
  | [] => true
  | SchedEvent.start _ :: rest => settleFreesSlot rest
  | SchedEvent.settle _ :: rest => headOk rest && settleFreesSlot rest

/-! ## Helper lemmas about the priority sort -/

theorem insertByPriority_perm (x : RegisteredExtractor) :
    ∀ l : List RegisteredExtractor, (insertByPriority x l).Perm (x :: l) := by
  intro l
  induction l with
  | nil => simp [insertByPriority]
  | cons y ys ih =>
    by_cases h : y.config.priority < x.config.priority
    · simp [insertByPriority, h]
    · simp only [insertByPriority, if_neg h]
      exact (ih.cons y).trans (List.Perm.swap x y ys)

theorem sortFold_perm (l : List RegisteredExtractor) :
    ∀ acc : List RegisteredExtractor,
      (l.foldl (fun acc x => insertByPriority x acc) acc).Perm (acc ++ l) := by
  induction l with
  | nil => intro acc; simp
  | cons x xs ih =>
    intro acc
    simp only [List.foldl_cons]
    refine (ih (insertByPriority x acc)).trans ?_
    refine (((insertByPriority_perm x acc).append_right xs)).trans ?_
    exact (List.perm_middle).symm

theorem sortByPriorityDesc_perm (l : List RegisteredExtractor) :
    (sortByPriorityDesc l).Perm l := by
  simpa [sortByPriorityDesc] using sortFold_perm l []

theorem enabledSorted_perm (r : ExtractorRegistry) :
    r.enabledSorted.Perm
      ((r.extractors.map Prod.snd).filter (fun reg => reg.config.enabled)) :=
  sortByPriorityDesc_perm _

/-! ## Helper lemmas about the per-unit loop -/

/-- The `results` entry a unit contributes when its wrapped execution
resolves. -/
def okEntry (lifelogs : List Lifelog) (env : Env) (timeoutMs : Nat)
    (reg : RegisteredExtractor) : Option ResultEntry :=
  match executeWithTimeout (reg.extractor.extract lifelogs env reg.config) timeoutMs with
  | .ok result => some { extractorId := reg.extractor.id, result := result }
  | .error _ => none

/-- The `errors` entry a unit contributes when its wrapped execution
rejects. -/
def errEntry (lifelogs : List Lifelog) (env : Env) (timeoutMs : Nat)
    (nowIso : String) (reg : RegisteredExtractor) : Option ExtractorError :=
  match executeWithTimeout (reg.extractor.extract lifelogs env reg.config) timeoutMs with
  | .ok _ => none
  | .error t => some (mkExtractorError reg.extractor.id t lifelogs.length nowIso)

/-- With `continueOnError: true` the loop never rejects: it returns exactly
the resolving units' entries, the rejecting units' errors, and the full
invocation trace. -/
theorem runUnits_continue (lifelogs : List Lifelog) (env : Env) (timeoutMs : Nat)
    (nowIso : String) :
    ∀ (l : List RegisteredExtractor) (res : List ResultEntry)
      (errs : List ExtractorError) (calls : List String),
      runUnits lifelogs env timeoutMs true nowIso l res errs calls
        = .ok (res ++ l.filterMap (okEntry lifelogs env timeoutMs),
               errs ++ l.filterMap (errEntry lifelogs env timeoutMs nowIso),
               calls ++ l.map (fun reg => reg.extractor.id)) := by
  intro l
  induction l with
  | nil => intro res errs calls; simp [runUnits]
  | cons reg rest ih =>
    intro res errs calls
    simp only [runUnits]
    cases hE : executeWithTimeout (reg.extractor.extract lifelogs env reg.config) timeoutMs with
    | ok result =>
      simp [ih, okEntry, errEntry, hE]
    | error t =>
      simp [ih, okEntry, errEntry, hE]

/-- Whatever the `continueOnError` policy, a normally-completing loop records
the full invocation trace, and every processed unit lands in exactly one of
the two accumulators: the lengths add up, and so do the per-id counts. -/
theorem runUnits_ok_spec (lifelogs : List Lifelog) (env : Env) (timeoutMs : Nat)
    (flag : Bool) (nowIso : String) :
    ∀ (l : List RegisteredExtractor) (res res' : List ResultEntry)
      (errs errs' : List ExtractorError) (calls calls' : List String),
      runUnits lifelogs env timeoutMs flag nowIso l res errs calls
        = .ok (res', errs', calls') →
      calls' = calls ++ l.map (fun reg => reg.extractor.id) ∧
      res'.length + errs'.length = res.length + errs.length + l.length ∧
      ∀ k : String,
        (res'.map ResultEntry.extractorId).count k
          + (errs'.map ExtractorError.extractorId).count k
        = (res.map ResultEntry.extractorId).count k
          + (errs.map ExtractorError.extractorId).count k
          + (l.map (fun reg => reg.extractor.id)).count k := by
  intro l
  induction l with
  | nil =>
    intro res res' errs errs' calls calls' h
    simp only [runUnits, Except.ok.injEq, Prod.mk.injEq] at h
    obtain ⟨h1, h2, h3⟩ := h
    subst h1; subst h2; subst h3
    simp
  | cons reg rest ih =>
    intro res res' errs errs' calls calls' h
    simp only [runUnits] at h
    cases hE : executeWithTimeout (reg.extractor.extract lifelogs env reg.config) timeoutMs with
    | ok result =>
      rw [hE] at h
      obtain ⟨h1, h2, h3⟩ := ih _ _ _ _ _ _ h
      refine ⟨by simpa using h1, by simpa [Nat.add_assoc, Nat.add_comm, Nat.add_left_comm] using h2, ?_⟩
      intro k
      have := h3 k
      simp only [List.map_append, List.count_append, List.map_cons, List.map_nil,
        List.count_cons, List.count_nil] at this ⊢
      omega
    | error t =>
      rw [hE] at h
      cases flag with
      | true =>
        simp only [if_pos rfl] at h
        obtain ⟨h1, h2, h3⟩ := ih _ _ _ _ _ _ h
        refine ⟨by simpa using h1, by simpa [Nat.add_assoc, Nat.add_comm, Nat.add_left_comm] using h2, ?_⟩
        intro k
        have := h3 k
        simp only [List.map_append, List.count_append, List.map_cons, List.map_nil,
          List.count_cons, List.count_nil, mkExtractorError] at this ⊢
        omega
      | false =>
        simp at h

/-- If every unit of a prefix resolves, the loop marches through the prefix
and then hits the rest. -/
theorem runUnits_ok_prefix (lifelogs : List Lifelog) (env : Env) (timeoutMs : Nat)
    (flag : Bool) (nowIso : String) :
    ∀ (l1 rest : List RegisteredExtractor) (res : List ResultEntry)
      (errs : List ExtractorError) (calls : List String),
      (∀ a ∈ l1,
        (executeWithTimeout (a.extractor.extract lifelogs env a.config) timeoutMs).isOk = true) →
      ∃ res2 calls2,
        runUnits lifelogs env timeoutMs flag nowIso (l1 ++ rest) res errs calls
          = runUnits lifelogs env timeoutMs flag nowIso rest res2 errs calls2 := by
  intro l1
  induction l1 with
  | nil => intro rest res errs calls _; exact ⟨res, calls, rfl⟩
  | cons a l1 ih =>
    intro rest res errs calls hok
    have ha := hok a (by simp)
    cases hE : executeWithTimeout (a.extractor.extract lifelogs env a.config) timeoutMs with
    | error t => rw [hE] at ha; simp [Except.isOk, Except.toBool] at ha
    | ok result =>
      simp only [List.cons_append, runUnits, hE]
      exact ih rest _ _ _ (fun b hb => hok b (by simp [hb]))

/-- With `continueOnError: false`, the first rejecting unit aborts the loop
with its thrown value. -/
theorem runUnits_abort (lifelogs : List Lifelog) (env : Env) (timeoutMs : Nat)
    (nowIso : String) (l1 l2 : List RegisteredExtractor)
    (bad : RegisteredExtractor) (t : Thrown)
    (h1 : ∀ a ∈ l1,
      (executeWithTimeout (a.extractor.extract lifelogs env a.config) timeoutMs).isOk = true)
    (hbad : executeWithTimeout (bad.extractor.extract lifelogs env bad.config) timeoutMs
      = .error t)
    (res : List ResultEntry) (errs : List ExtractorError) (calls : List String) :
    runUnits lifelogs env timeoutMs false nowIso (l1 ++ bad :: l2) res errs calls
      = .error t := by
  obtain ⟨res2, calls2, hstep⟩ :=
    runUnits_ok_prefix lifelogs env timeoutMs false nowIso l1 (bad :: l2) res errs calls h1
  rw [hstep]
  simp [runUnits, hbad]

theorem enabledSorted_length_le (r : ExtractorRegistry) :
    r.enabledSorted.length ≤ r.extractors.length := by
  calc r.enabledSorted.length
      = ((r.extractors.map Prod.snd).filter (fun reg => reg.config.enabled)).length :=
        (enabledSorted_perm r).length_eq
    _ ≤ (r.extractors.map Prod.snd).length := List.length_filter_le _ _
    _ = r.extractors.length := List.length_map _ _

/-! ## Helper lemmas about initialization and the shape of `execute` -/

/-- The initialization pass never touches a unit's extractor, configuration or
registration time. -/
theorem initUnit_keeps (env : Env) (k : String) (reg : RegisteredExtractor) :
    (initUnit env k reg).1.extractor = reg.extractor ∧
    (initUnit env k reg).1.config = reg.config ∧
    (initUnit env k reg).1.registeredAt = reg.registeredAt := by
  unfold initUnit
  cases reg.extractor.init with
  | none => exact ⟨rfl, rfl, rfl⟩
  | some f =>
    by_cases h : reg.initialized
    · simp [h]
    · simp only [h, if_neg]
      cases f env <;> simp

theorem initUnits_fst (env : Env) :
    ∀ l : List (String × RegisteredExtractor),
      (initUnits env l).1 = l.map (fun p => (p.1, (initUnit env p.1 p.2).1)) := by
  intro l
  induction l with
  | nil => rfl
  | cons p rest ih => simp [initUnits, ih]

theorem initUnits_none_elem (env : Env) :
    ∀ l : List (String × RegisteredExtractor),
      (initUnits env l).2.2 = none →
      ∀ p ∈ l, (initUnit env p.1 p.2).2.2 = none := by
  intro l
  induction l with
  | nil => intro _ p hp; simp at hp
  | cons q rest ih =>
    intro h p hp
    simp only [initUnits] at h
    cases hq : (initUnit env q.1 q.2).2.2 with
    | some t => rw [hq] at h; simp at h
    | none =>
      rw [hq] at h
      simp only at h
      rcases List.mem_cons.mp hp with hp | hp
      · subst hp; exact hq
      · exact ih h p hp

/-- On a successful pass, a unit's flag becomes `initialized || hasMethod`. -/
theorem initUnit_flag_of_ok (env : Env) (k : String) (reg : RegisteredExtractor)
    (h : (initUnit env k reg).2.2 = none) :
    (initUnit env k reg).1
      = { reg with initialized := reg.initialized || (reg.extractor.init).isSome } := by
  unfold initUnit at h ⊢
  cases reg with
  | mk extr cfg flag at_ =>
    cases hm : extr.init with
    | none => simp [hm]
    | some f =>
      simp only [hm] at h ⊢
      cases flag with
      | true => simp
      | false =>
        simp only [Bool.false_or, Option.isSome_some, if_neg Bool.false_ne_true] at h ⊢
        cases hf : f env with
        | none => simp [hf]
        | some t => rw [hf] at h; simp at h

/-- The observable data of a registry entry that execution depends on. -/
def entryData (p : String × RegisteredExtractor) :
    String × BaseExtractor × ExtractorConfig :=
  (p.1, p.2.extractor, p.2.config)

/-- A normally-completing `execute` is `executeCore` run on a registry whose
entries carry the same ids, extractors and configurations as the caller's. -/
theorem execute_ok_elim (r : ExtractorRegistry) (lifelogs : List Lifelog)
    (env : Env) (wallTime : Nat) (nowIso : String)
    (out : ExtractorRegistry × RegistryExecutionResult × List String)
    (h : r.execute lifelogs env wallTime nowIso = .ok out) :
    ∃ r1 : ExtractorRegistry,
      r1.config = r.config ∧
      r1.extractors.map entryData = r.extractors.map entryData ∧
      executeCore r1 lifelogs env wallTime nowIso = .ok out := by
  unfold ExtractorRegistry.execute at h
  by_cases hinit : r.initialized
  · rw [if_pos hinit] at h
    exact ⟨r, rfl, rfl, h⟩
  · rw [if_neg hinit] at h
    simp only at h
    cases herr : (r.initAll env).2.2 with
    | some t =>
      rw [herr] at h; simp at h
    | none =>
      rw [herr] at h
      simp only at h
      refine ⟨(r.initAll env).1, ?_, ?_, h⟩
      · unfold ExtractorRegistry.initAll at herr ⊢
        cases hu : (initUnits env r.extractors).2.2 <;> simp [hu] at herr ⊢
      · have hfst : (r.initAll env).1.extractors = (initUnits env r.extractors).1 := by
          unfold ExtractorRegistry.initAll at herr ⊢
          cases hu : (initUnits env r.extractors).2.2 <;> simp [hu] at herr ⊢
        rw [hfst, initUnits_fst, List.map_map]
        refine List.map_congr_left ?_
        intro p _
        obtain ⟨h1, h2, _⟩ := initUnit_keeps env p.1 p.2
        simp [entryData, Function.comp, h1, h2]

/-- Destructure a normally-completing `executeCore` into the underlying loop
outcome and the shape of the report. -/
theorem executeCore_ok_elim (r1 : ExtractorRegistry) (lifelogs : List Lifelog)
    (env : Env) (wallTime : Nat) (nowIso : String)
    (r2 : ExtractorRegistry) (report : RegistryExecutionResult)
    (calls : List String)
    (h : executeCore r1 lifelogs env wallTime nowIso = .ok (r2, report, calls)) :
    r2 = r1 ∧
    runUnits lifelogs env r1.config.extractorTimeout r1.config.continueOnError
        nowIso r1.enabledSorted [] [] []
      = .ok (report.results, report.errors, calls) ∧
    report.summary
      = { totalTime := wallTime, totalExtractors := r1.extractors.length
          successCount := report.results.length
          errorCount := report.errors.length
          disabledCount := r1.extractors.length - r1.enabledSorted.length } := by
  unfold executeCore at h
  cases hrw : runUnits lifelogs env r1.config.extractorTimeout
      r1.config.continueOnError nowIso r1.enabledSorted [] [] [] with
  | error t => rw [hrw] at h; simp at h
  | ok triple =>
    rw [hrw] at h
    obtain ⟨res, errs, cs⟩ := triple
    simp only [Except.ok.injEq, Prod.mk.injEq] at h
    obtain ⟨h1, h2, h3⟩ := h
    subst h1 h3
    refine ⟨rfl, ?_, ?_⟩ <;> simp [← h2]

/-- Two entries sharing a key in a key-nodup association list are the same
entry. -/
theorem keyUnique {l : List (String × RegisteredExtractor)}
    (hnd : (l.map Prod.fst).Nodup) {k : String} {a b : RegisteredExtractor}
    (ha : (k, a) ∈ l) (hb : (k, b) ∈ l) : a = b := by
  induction l with
  | nil => simp at ha
  | cons q rest ih =>
    simp only [List.map_cons, List.nodup_cons] at hnd
    rcases List.mem_cons.mp ha with ha | ha <;> rcases List.mem_cons.mp hb with hb | hb
    · rw [← ha] at hb
      exact congrArg Prod.snd hb.symm
    · exfalso
      apply hnd.1
      have hk : q.1 = k := congrArg Prod.fst ha.symm
      rw [hk]
      exact List.mem_map_of_mem Prod.fst hb
    · exfalso
      apply hnd.1
      have hk : q.1 = k := congrArg Prod.fst hb.symm
      rw [hk]
      exact List.mem_map_of_mem Prod.fst ha
    · exact ih hnd.2 ha hb

/-! ## Concrete instances used by the witnesses -/

/-- A throwaway environment value. -/
def sampleEnv : Env := ⟨"", "UTC", "", "", "", ""⟩

/-- A minimal extractor result. -/
def sampleResult (s : String) : ExtractorResult := ⟨s, s, none⟩

/-- A well-typed extractor unit with the given id, priority and behaviour. -/
def mkUnit (id : String) (prio : Int) (b : ExtractBehavior) : BaseExtractor :=
  { id := id, name := id, description := id, version := "1.0.0"
    defaultConfig := { enabled := true, priority := prio, settings := some [] }
    extract := fun _ _ _ => b
    validateConfig := fun _ => none
    init := none }

/-- The registry entry `register` would store for a unit under its default
configuration. -/
def entryOf (x : BaseExtractor) : String × RegisteredExtractor :=
  (x.id, { extractor := x, config := x.defaultConfig, initialized := false
           registeredAt := 0 })

def unitA : BaseExtractor := mkUnit "A" 50 (.resolves (sampleResult "a") 10)
def unitB : BaseExtractor := mkUnit "B" 150 (.resolves (sampleResult "b") 10)
def unitC : BaseExtractor := mkUnit "C" 100 (.resolves (sampleResult "c") 10)
def unitF : BaseExtractor := mkUnit "F" 120 (.rejects (.errObj "boom") 0)
def unitH : BaseExtractor := mkUnit "H" 120 .hangs
def unitD : BaseExtractor := mkUnit "D" 100 (.resolves (sampleResult "d") 5)
def unitE : BaseExtractor := mkUnit "E" 100 (.resolves (sampleResult "e") 5)

/-- A registry configuration with everything explicit. -/
def cfgWith (maxC : Nat) (timeout : Nat) (coe : Bool) : RegistryConfig :=
  { maxConcurrency := maxC, extractorTimeout := timeout, continueOnError := coe
    globalConfig := none }

/-- Three healthy units A, B, C (priorities 50, 150, 100) under
`maxConcurrency: 1`, already initialized. -/
def regABC : ExtractorRegistry :=
  ⟨[entryOf unitA, entryOf unitB, entryOf unitC], cfgWith 1 30000 true, true⟩

/-- Like `regABC`, but B replaced by the throwing unit F and concurrency 2. -/
def regWithFailure (coe : Bool) : ExtractorRegistry :=
  ⟨[entryOf unitA, entryOf unitF, entryOf unitC], cfgWith 2 30000 coe, true⟩

/-- Like `regABC`, but B replaced by the hanging unit H and a 500 ms
timeout. -/
def regWithHang : ExtractorRegistry :=
  ⟨[entryOf unitA, entryOf unitH, entryOf unitC], cfgWith 2 500 true, true⟩

/-- Two units of equal priority registered D before E. -/
def regDE : ExtractorRegistry :=
  ⟨[entryOf unitD, entryOf unitE], cfgWith 1 30000 true, true⟩

/-- A registry with a disabled unit: C disabled, A and B enabled. -/
def regDisabled : ExtractorRegistry :=
  ⟨[entryOf unitA, entryOf unitB,
    ("C", { extractor := unitC
            config := { enabled := false, priority := 100, settings := some [] }
            initialized := false, registeredAt := 0 })],
   cfgWith 5 30000 true, true⟩

/-! ## Claim theorems -/

/-- Claim C1: for every registry and every `execute` call that completes
normally (no abort), the returned report satisfies `summary.successCount +
summary.errorCount + summary.disabledCount == summary.totalExtractors`, where
`totalExtractors` is the full registered count (including disabled units),
`successCount` is the length of `results`, and `errorCount` is the length of
`errors`. -/
theorem execute_exhaustive_accounting
    (r : ExtractorRegistry) (lifelogs : List Lifelog) (env : Env)
    (wallTime : Nat) (nowIso : String)
    (r2 : ExtractorRegistry) (report : RegistryExecutionResult)
    (calls : List String)
    (h : r.execute lifelogs env wallTime nowIso = .ok (r2, report, calls)) :
    report.summary.successCount + report.summary.errorCount
        + report.summary.disabledCount
      = report.summary.totalExtractors ∧
    report.summary.totalExtractors = r.extractors.length ∧
    report.summary.successCount = report.results.length ∧
    report.summary.errorCount = report.errors.length := by
  obtain ⟨r1, hcfg, hmap, hcore⟩ :=
    execute_ok_elim r lifelogs env wallTime nowIso _ h
  obtain ⟨hr2, hrun, hsum⟩ :=
    executeCore_ok_elim r1 lifelogs env wallTime nowIso r2 report calls hcore
  obtain ⟨hcalls, hlen, hcount⟩ :=
    runUnits_ok_spec lifelogs env r1.config.extractorTimeout
      r1.config.continueOnError nowIso r1.enabledSorted _ _ _ _ _ _ hrun
  have hle := enabledSorted_length_le r1
  have hN : r1.extractors.length = r.extractors.length := by
    have := congrArg List.length hmap
    simpa using this
  rw [hsum]
  refine ⟨?_, ?_, rfl, rfl⟩
  · simp only [List.length_nil, Nat.zero_add] at hlen
    show report.results.length + report.errors.length
        + (r1.extractors.length - r1.enabledSorted.length) = r1.extractors.length
    omega
  · exact hN

/-! Auxiliary facts connecting the enabled-unit selection with the raw entry
list, stated so that they transfer along `entryData`-preserving maps. -/

theorem enabled_ids_eq (L : List (String × RegisteredExtractor)) :
    ((L.map Prod.snd).filter (fun reg => reg.config.enabled)).map
        (fun reg => reg.extractor.id)
      = (L.filter (fun p => p.2.config.enabled)).map
          (fun p => p.2.extractor.id) := by
  induction L with
  | nil => rfl
  | cons p rest ih =>
    by_cases hp : p.2.config.enabled <;>
      simp [List.filter_cons, hp, ih]

theorem enabledIds_via_entryData (L : List (String × RegisteredExtractor)) :
    (L.filter (fun p => p.2.config.enabled)).map (fun p => p.2.extractor.id)
      = ((L.map entryData).filter (fun q => q.2.2.enabled)).map
          (fun q => q.2.1.id) := by
  induction L with
  | nil => rfl
  | cons p rest ih =>
    by_cases hp : p.2.config.enabled <;>
      simp [List.filter_cons, entryData, hp, ih]

theorem filter_partition_length (L : List (String × RegisteredExtractor)) :
    (L.filter (fun p => p.2.config.enabled)).length
        + (L.filter (fun p => !(p.2.config.enabled))).length
      = L.length := by
  induction L with
  | nil => rfl
  | cons p rest ih =>
    by_cases hp : p.2.config.enabled <;>
      simp [List.filter_cons, hp] <;> omega

/-- Count of a key among the enabled entries' ids, under well-formedness:
`1` when the key's entry is enabled, `0` when it is disabled. -/
theorem count_enabled_ids (r : ExtractorRegistry) (hWF : r.WF)
    (k : String) (reg : RegisteredExtractor)
    (hmem : (k, reg) ∈ r.extractors) :
    ((r.extractors.filter (fun p => p.2.config.enabled)).map
        (fun p => p.2.extractor.id)).count k
      = if reg.config.enabled then 1 else 0 := by
  obtain ⟨hnd, hkey⟩ := hWF
  have hmapid : (r.extractors.filter (fun p => p.2.config.enabled)).map
      (fun p => p.2.extractor.id)
      = (r.extractors.filter (fun p => p.2.config.enabled)).map Prod.fst := by
    refine List.map_congr_left ?_
    intro p hp
    exact (hkey p (List.mem_of_mem_filter hp)).symm
  rw [hmapid]
  by_cases hen : reg.config.enabled
  · rw [if_pos hen]
    have hle : ((r.extractors.filter (fun p => p.2.config.enabled)).map Prod.fst).count k
        ≤ (r.extractors.map Prod.fst).count k :=
      ((r.extractors.filter_sublist).map Prod.fst).count_le k
    have h1 : (r.extractors.map Prod.fst).count k ≤ 1 :=
      List.nodup_iff_count_le_one.mp hnd k
    have hmemf : (k, reg) ∈ r.extractors.filter (fun p => p.2.config.enabled) :=
      List.mem_filter.mpr ⟨hmem, by simpa using hen⟩
    have hkmem : k ∈ (r.extractors.filter (fun p => p.2.config.enabled)).map Prod.fst :=
      List.mem_map_of_mem Prod.fst hmemf
    have hpos : 1 ≤ ((r.extractors.filter (fun p => p.2.config.enabled)).map Prod.fst).count k :=
      List.count_pos_iff.mpr hkmem
    omega
  · rw [if_neg hen]
    rw [List.count_eq_zero]
    intro hkmem
    obtain ⟨p, hp, hpk⟩ := List.mem_map.mp hkmem
    have hpl := List.mem_of_mem_filter hp
    have hpen := (List.mem_filter.mp hp).2
    have hp2 : (k, p.2) ∈ r.extractors := by
      have : p = (k, p.2) := by
        cases p
        simp only at hpk
        simp [hpk]
      rw [← this]
      exact hpl
    have := keyUnique hnd hmem hp2
    rw [← this] at hpen
    simp [hen] at hpen

/-- Claim C2: in every normally-completing `execute` call, each registered
unit either is disabled — its `extract` is never called and its id appears in
neither `results` nor `errors`, being counted only through `disabledCount` —
or is enabled, in which case its `extract` is invoked exactly once and its id
lands in exactly one of `results` or `errors`. -/
theorem execute_unit_partition
    (r : ExtractorRegistry) (lifelogs : List Lifelog) (env : Env)
    (wallTime : Nat) (nowIso : String)
    (r2 : ExtractorRegistry) (report : RegistryExecutionResult)
    (calls : List String)
    (hWF : r.WF)
    (h : r.execute lifelogs env wallTime nowIso = .ok (r2, report, calls))
    (k : String) (reg : RegisteredExtractor)
    (hmem : (k, reg) ∈ r.extractors) :
    (reg.config.enabled = false →
      k ∉ calls ∧ k ∉ resultIds report ∧ k ∉ errorIds report) ∧
    (reg.config.enabled = true →
      calls.count k = 1 ∧
      ((k ∈ resultIds report ∧ k ∉ errorIds report) ∨
       (k ∈ errorIds report ∧ k ∉ resultIds report))) ∧
    report.summary.disabledCount
      = (r.extractors.filter (fun p => !(p.2.config.enabled))).length := by
  obtain ⟨r1, hcfg, hmap, hcore⟩ :=
    execute_ok_elim r lifelogs env wallTime nowIso _ h
  obtain ⟨hr2, hrun, hsum⟩ :=
    executeCore_ok_elim r1 lifelogs env wallTime nowIso r2 report calls hcore
  obtain ⟨hcalls, hlen, hcount⟩ :=
    runUnits_ok_spec lifelogs env r1.config.extractorTimeout
      r1.config.continueOnError nowIso r1.enabledSorted _ _ _ _ _ _ hrun
  have hperm :
      (r1.enabledSorted.map (fun x => x.extractor.id)).Perm
        (((r1.extractors.map Prod.snd).filter (fun x => x.config.enabled)).map
          (fun x => x.extractor.id)) :=
    (enabledSorted_perm r1).map _
  have hidlist :
      ((r1.extractors.map Prod.snd).filter (fun x => x.config.enabled)).map
          (fun x => x.extractor.id)
        = (r.extractors.filter (fun p => p.2.config.enabled)).map
            (fun p => p.2.extractor.id) := by
    rw [enabled_ids_eq, enabledIds_via_entryData, hmap,
      ← enabledIds_via_entryData]
  have hck : (r1.enabledSorted.map (fun x => x.extractor.id)).count k
      = if reg.config.enabled then 1 else 0 := by
    rw [hperm.count_eq, hidlist]
    exact count_enabled_ids r hWF k reg hmem
  have hcount' := hcount k
  simp only [List.map_nil, List.count_nil, Nat.zero_add] at hcount'
  have hcallsid : calls = r1.enabledSorted.map (fun x => x.extractor.id) := by
    simpa using hcalls
  have henlen : r1.enabledSorted.length
      = (r1.extractors.filter (fun p => p.2.config.enabled)).length := by
    rw [(enabledSorted_perm r1).length_eq]
    have := congrArg List.length (enabled_ids_eq r1.extractors)
    simpa using this
  have hflen : (r1.extractors.filter (fun p => p.2.config.enabled)).length
      = (r.extractors.filter (fun p => p.2.config.enabled)).length := by
    have h1 := congrArg List.length (enabledIds_via_entryData r1.extractors)
    have h2 := congrArg List.length (enabledIds_via_entryData r.extractors)
    rw [hmap] at h1
    simp only [List.length_map] at h1 h2
    rw [h1, h2]
  have hN : r1.extractors.length = r.extractors.length := by
    have := congrArg List.length hmap
    simpa using this
  have hpart := filter_partition_length r.extractors
  unfold resultIds errorIds
  refine ⟨?_, ?_, ?_⟩
  · intro hdis
    rw [hdis] at hck
    simp only [if_neg (by simp : ¬(false = true))] at hck
    have hres : (report.results.map ResultEntry.extractorId).count k = 0 := by omega
    have herr : (report.errors.map ExtractorError.extractorId).count k = 0 := by omega
    have hcallscnt : calls.count k = 0 := by rw [hcallsid, hck]
    exact ⟨List.count_eq_zero.mp hcallscnt,
      List.count_eq_zero.mp hres, List.count_eq_zero.mp herr⟩
  · intro hen
    rw [hen] at hck
    norm_num at hck
    refine ⟨by rw [hcallsid]; exact hck, ?_⟩
    have hsplit :
        ((report.results.map ResultEntry.extractorId).count k = 1 ∧
         (report.errors.map ExtractorError.extractorId).count k = 0) ∨
        ((report.results.map ResultEntry.extractorId).count k = 0 ∧
         (report.errors.map ExtractorError.extractorId).count k = 1) := by
      omega
    rcases hsplit with ⟨h1, h0⟩ | ⟨h0, h1⟩
    · exact Or.inl ⟨List.count_pos_iff.mp (by omega),
        List.count_eq_zero.mp h0⟩
    · exact Or.inr ⟨List.count_pos_iff.mp (by omega),
        List.count_eq_zero.mp h0⟩
  · rw [hsum]
    show r1.extractors.length - r1.enabledSorted.length = _
    omega

/-- Witness for C2: on the registry with C disabled, C is never called and is
absent from both lists, while A is called once and lands in `results`. -/
theorem execute_unit_partition_witness :
    ∃ r2 report calls,
      regDisabled.execute [] sampleEnv 3 "T" = .ok (r2, report, calls) ∧
      ("C" ∉ calls ∧ "C" ∉ resultIds report ∧ "C" ∉ errorIds report) ∧
      report.summary.disabledCount = 1 := by
  refine ⟨_, _, _, rfl, ?_, ?_⟩
  · exact (execute_unit_partition regDisabled [] sampleEnv 3 "T" _ _ _
      (by decide)
      rfl "C"
      { extractor := unitC
        config := { enabled := false, priority := 100, settings := some [] }
        initialized := false, registeredAt := 0 }
      (by simp [regDisabled, entryOf])).1 rfl
  · rfl

/-- In a well-formed, initialized registry of enabled units where exactly one
unit's wrapped execution rejects (with `t`) and every other unit's resolves,
`execute` under `continueOnError: true` completes normally with exactly that
one error entry, all other units landing in `results`. -/
theorem single_error_execution
    (r : ExtractorRegistry) (lifelogs : List Lifelog) (env : Env)
    (wallTime : Nat) (nowIso : String)
    (hWF : r.WF) (hinit : r.initialized = true)
    (hcoe : r.config.continueOnError = true)
    (hall : ∀ p ∈ r.extractors, p.2.config.enabled = true)
    (k : String) (regF : RegisteredExtractor)
    (hmem : (k, regF) ∈ r.extractors)
    (t : Thrown)
    (hbad : executeWithTimeout (regF.extractor.extract lifelogs env regF.config)
        r.config.extractorTimeout = .error t)
    (hok : ∀ p ∈ r.extractors, p.1 ≠ k →
      (executeWithTimeout (p.2.extractor.extract lifelogs env p.2.config)
        r.config.extractorTimeout).isOk = true) :
    ∃ r2 report calls,
      r.execute lifelogs env wallTime nowIso = .ok (r2, report, calls) ∧
      report.errors = [mkExtractorError k t lifelogs.length nowIso] ∧
      report.results.length = r.extractors.length - 1 ∧
      ∀ p ∈ r.extractors, p.1 ≠ k → p.1 ∈ resultIds report := by
  obtain ⟨hnd, hkey⟩ := hWF
  have hkid : regF.extractor.id = k := (hkey (k, regF) hmem).symm
  -- the admission list is a permutation of all the registered units
  have hfilter : (r.extractors.map Prod.snd).filter (fun reg => reg.config.enabled)
      = r.extractors.map Prod.snd := by
    refine List.filter_eq_self.mpr ?_
    intro a ha
    obtain ⟨p, hp, hpa⟩ := List.mem_map.mp ha
    rw [← hpa]
    simpa using hall p hp
  have hLperm : r.enabledSorted.Perm (r.extractors.map Prod.snd) := by
    have := enabledSorted_perm r
    rw [hfilter] at this
    exact this
  -- the admission list has no duplicate units
  have hnodup_pairs : r.extractors.Nodup := hnd.of_map Prod.fst
  have hsnd_nodup : (r.extractors.map Prod.snd).Nodup := by
    refine List.Nodup.map_on ?_ hnodup_pairs
    intro x hx y hy hxy
    have hx1 : x.1 = x.2.extractor.id := hkey x hx
    have hy1 : y.1 = y.2.extractor.id := hkey y hy
    have : x.1 = y.1 := by rw [hx1, hy1, hxy]
    calc x = (x.1, x.2) := rfl
      _ = (y.1, y.2) := by rw [this, hxy]
      _ = y := rfl
  have hLnodup : r.enabledSorted.Nodup := hLperm.symm.nodup hsnd_nodup
  -- split the admission list around the failing unit
  have hregFL : regF ∈ r.enabledSorted :=
    hLperm.symm.subset (List.mem_map_of_mem Prod.snd hmem)
  obtain ⟨l1, l2, hsplit⟩ := List.append_of_mem hregFL
  -- any other admitted unit resolves
  have hother : ∀ a, a ∈ l1 ∨ a ∈ l2 →
      okEntry lifelogs env r.config.extractorTimeout a
        = some { extractorId := a.extractor.id
                 result := match executeWithTimeout
                   (a.extractor.extract lifelogs env a.config)
                   r.config.extractorTimeout with
                   | .ok result => result
                   | .error _ => sampleResult "" } ∧
      errEntry lifelogs env r.config.extractorTimeout nowIso a = none := by
    intro a hmem12
    have haL : a ∈ r.enabledSorted := by
      rw [hsplit]
      rcases hmem12 with h1 | h2
      · exact List.mem_append.mpr (Or.inl h1)
      · exact List.mem_append.mpr (Or.inr (List.mem_cons_of_mem _ h2))
    have haM : a ∈ r.extractors.map Prod.snd := hLperm.subset haL
    obtain ⟨p, hp, hpa⟩ := List.mem_map.mp haM
    have hregFnotmem : regF ∉ l1 ∧ regF ∉ l2 := by
      have hnd' := hsplit ▸ hLnodup
      rw [List.nodup_append] at hnd'
      exact ⟨fun hc => hnd'.2.2 hc (List.mem_cons_self _ _),
        (List.nodup_cons.mp hnd'.2.1).1⟩
    have hpk : p.1 ≠ k := by
      intro hk
      have hpp : (k, p.2) ∈ r.extractors := by
        have : p = (k, p.2) := by
          cases p; simp only at hk; simp [hk]
        rw [← this]; exact hp
      have : p.2 = regF := keyUnique hnd hpp hmem
      rw [this] at hpa
      rcases hmem12 with h1 | h2
      · exact hregFnotmem.1 (hpa ▸ h1)
      · exact hregFnotmem.2 (hpa ▸ h2)
    have hisok := hok p hp hpk
    rw [hpa] at hisok
    cases hE : executeWithTimeout (a.extractor.extract lifelogs env a.config)
        r.config.extractorTimeout with
    | error t' => rw [hE] at hisok; simp [Except.isOk, Except.toBool] at hisok
    | ok result =>
      constructor
      · simp [okEntry, hE]
      · simp [errEntry, hE]
  -- unwind execute through the closed form of the loop
  have hrun := runUnits_continue lifelogs env r.config.extractorTimeout nowIso
    r.enabledSorted [] [] []
  have hx : r.execute lifelogs env wallTime nowIso
      = executeCore r lifelogs env wallTime nowIso := by
    simp [ExtractorRegistry.execute, hinit]
  have hcore : executeCore r lifelogs env wallTime nowIso
      = .ok (r,
        { results := r.enabledSorted.filterMap
            (okEntry lifelogs env r.config.extractorTimeout)
          errors := r.enabledSorted.filterMap
            (errEntry lifelogs env r.config.extractorTimeout nowIso)
          summary :=
            { totalTime := wallTime, totalExtractors := r.extractors.length
              successCount := (r.enabledSorted.filterMap
                (okEntry lifelogs env r.config.extractorTimeout)).length
              errorCount := (r.enabledSorted.filterMap
                (errEntry lifelogs env r.config.extractorTimeout nowIso)).length
              disabledCount :=
                r.extractors.length - r.enabledSorted.length } },
        r.enabledSorted.map (fun reg => reg.extractor.id)) := by
    unfold executeCore
    rw [hcoe, hrun]
    simp
  -- the error list is exactly the failing unit's entry
  have herr1 : ∀ a ∈ l1,
      errEntry lifelogs env r.config.extractorTimeout nowIso a = none :=
    fun a ha => (hother a (Or.inl ha)).2
  have herr2 : ∀ a ∈ l2,
      errEntry lifelogs env r.config.extractorTimeout nowIso a = none :=
    fun a ha => (hother a (Or.inr ha)).2
  have herrF : errEntry lifelogs env r.config.extractorTimeout nowIso regF
      = some (mkExtractorError k t lifelogs.length nowIso) := by
    simp [errEntry, hbad, hkid]
  have herrs : r.enabledSorted.filterMap
      (errEntry lifelogs env r.config.extractorTimeout nowIso)
      = [mkExtractorError k t lifelogs.length nowIso] := by
    rw [hsplit, List.filterMap_append]
    rw [List.filterMap_eq_nil_iff.mpr herr1]
    simp only [List.nil_append, List.filterMap_cons, herrF]
    rw [List.filterMap_eq_nil_iff.mpr herr2]
  -- length accounting
  have hLlen : r.enabledSorted.length = r.extractors.length := by
    rw [hLperm.length_eq, List.length_map]
  refine ⟨_, _, _, by rw [hx, hcore], herrs, ?_, ?_⟩
  · -- successes are everyone but the failing unit
    obtain ⟨hcallseq, hlen, hcnt⟩ := runUnits_ok_spec lifelogs env
      r.config.extractorTimeout true nowIso r.enabledSorted _ _ _ _ _ _ hrun
    rw [herrs] at hlen
    simp only [List.length_nil, List.length_cons, Nat.zero_add, List.nil_append,
      List.length_append] at hlen
    simp only []
    omega
  · intro p hp hpk
    have haM : p.2 ∈ r.extractors.map Prod.snd := List.mem_map_of_mem Prod.snd hp
    have haL : p.2 ∈ r.enabledSorted := hLperm.symm.subset haM
    have hnotF : p.2 ∈ l1 ∨ p.2 ∈ l2 := by
      rw [hsplit] at haL
      rcases List.mem_append.mp haL with h1 | h12
      · exact Or.inl h1
      · rcases List.mem_cons.mp h12 with heq | h2
        · exfalso
          apply hpk
          have : (p.1, p.2) ∈ r.extractors := by
            cases p; exact hp
          have hk2 : p.1 = p.2.extractor.id := hkey p hp
          rw [hk2, heq, hkid]
        · exact Or.inr h2
    obtain ⟨hokE, -⟩ := hother p.2 hnotF
    unfold resultIds
    simp only []
    refine List.mem_map.mpr ?_
    refine ⟨_, List.mem_filterMap.mpr ⟨p.2, haL, hokE⟩, ?_⟩
    simp [(hkey p hp).symm]

/-- Claim C3: with `continueOnError: true` and N ≥ 2 enabled units of which
exactly one throws synchronously inside `extract`, `execute` resolves; the
report has N−1 entries in `results` and exactly one in `errors`, tagged with
the failing unit's id and carrying the message, the original cause, and a
context with the record count and a timestamp — the failure never surfaces as
an exception. -/
theorem execute_isolates_single_failure
    (r : ExtractorRegistry) (lifelogs : List Lifelog) (env : Env)
    (wallTime : Nat) (nowIso : String)
    (hWF : r.WF) (hinit : r.initialized = true)
    (hcoe : r.config.continueOnError = true)
    (hN : 2 ≤ r.extractors.length)
    (hall : ∀ p ∈ r.extractors, p.2.config.enabled = true)
    (k : String) (regF : RegisteredExtractor)
    (hmem : (k, regF) ∈ r.extractors)
    (msg : String)
    (hthrow : regF.extractor.extract lifelogs env regF.config
      = .rejects (.errObj msg) 0)
    (htm : 0 < r.config.extractorTimeout)
    (hok : ∀ p ∈ r.extractors, p.1 ≠ k →
      (executeWithTimeout (p.2.extractor.extract lifelogs env p.2.config)
        r.config.extractorTimeout).isOk = true) :
    ∃ r2 report calls,
      r.execute lifelogs env wallTime nowIso = .ok (r2, report, calls) ∧
      report.results.length = r.extractors.length - 1 ∧
      report.errors
        = [{ extractorId := k, message := msg, originalError := some msg
             context := { logCount := lifelogs.length, timestamp := nowIso } }] := by
  have hbad : executeWithTimeout (regF.extractor.extract lifelogs env regF.config)
      r.config.extractorTimeout = .error (.errObj msg) := by
    rw [hthrow]
    simp [executeWithTimeout, htm]
  obtain ⟨r2, report, calls, hx, herr, hlen, -⟩ :=
    single_error_execution r lifelogs env wallTime nowIso ⟨hWF.1, hWF.2⟩ hinit
      hcoe hall k regF hmem (.errObj msg) hbad hok
  exact ⟨r2, report, calls, hx, hlen, by rw [herr]; rfl⟩

/-- Witness for C3: three enabled units of which F throws `boom`; two results,
one structured error entry. -/
theorem execute_isolates_single_failure_witness :
    ∃ r2 report calls,
      (regWithFailure true).execute [] sampleEnv 7 "T" = .ok (r2, report, calls) ∧
      report.results.length = 2 ∧
      report.errors
        = [{ extractorId := "F", message := "boom", originalError := some "boom"
             context := { logCount := 0, timestamp := "T" } }] := by
  obtain ⟨r2, report, calls, hx, hlen, herr⟩ :=
    execute_isolates_single_failure (regWithFailure true) [] sampleEnv 7 "T"
      (by decide) rfl rfl (by decide)
      (by intro p hp
          rcases List.mem_cons.mp hp with h | hp2
          · subst h; rfl
          rcases List.mem_cons.mp hp2 with h | hp3
          · subst h; rfl
          rcases List.mem_cons.mp hp3 with h | hp4
          · subst h; rfl
          · simp at hp4)
      "F" (entryOf unitF).2
      (List.mem_cons_of_mem _ (List.mem_cons_self _ _))
      "boom" rfl (by decide)
      (by intro p hp hne
          rcases List.mem_cons.mp hp with h | hp2
          · subst h; rfl
          rcases List.mem_cons.mp hp2 with h | hp3
          · exact absurd (by rw [h]; rfl) hne
          rcases List.mem_cons.mp hp3 with h | hp4
          · subst h; rfl
          · simp at hp4)
  exact ⟨r2, report, calls, hx, by rw [hlen]; rfl, herr⟩

/-- Under well-formedness, all units enabled and every unit other than `k`'s
resolving, the admission list splits around `k`'s unit with a resolving
prefix. -/
theorem enabled_split_of_single
    (r : ExtractorRegistry) (lifelogs : List Lifelog) (env : Env)
    (hWF : r.WF)
    (hall : ∀ p ∈ r.extractors, p.2.config.enabled = true)
    (k : String) (regF : RegisteredExtractor)
    (hmem : (k, regF) ∈ r.extractors)
    (hok : ∀ p ∈ r.extractors, p.1 ≠ k →
      (executeWithTimeout (p.2.extractor.extract lifelogs env p.2.config)
        r.config.extractorTimeout).isOk = true) :
    ∃ l1 l2, r.enabledSorted = l1 ++ regF :: l2 ∧
      ∀ a ∈ l1,
        (executeWithTimeout (a.extractor.extract lifelogs env a.config)
          r.config.extractorTimeout).isOk = true := by
  obtain ⟨hnd, hkey⟩ := hWF
  have hfilter : (r.extractors.map Prod.snd).filter (fun reg => reg.config.enabled)
      = r.extractors.map Prod.snd := by
    refine List.filter_eq_self.mpr ?_
    intro a ha
    obtain ⟨p, hp, hpa⟩ := List.mem_map.mp ha
    rw [← hpa]
    simpa using hall p hp
  have hLperm : r.enabledSorted.Perm (r.extractors.map Prod.snd) := by
    have := enabledSorted_perm r
    rw [hfilter] at this
    exact this
  have hnodup_pairs : r.extractors.Nodup := hnd.of_map Prod.fst
  have hsnd_nodup : (r.extractors.map Prod.snd).Nodup := by
    refine List.Nodup.map_on ?_ hnodup_pairs
    intro x hx y hy hxy
    have hx1 : x.1 = x.2.extractor.id := hkey x hx
    have hy1 : y.1 = y.2.extractor.id := hkey y hy
    have : x.1 = y.1 := by rw [hx1, hy1, hxy]
    calc x = (x.1, x.2) := rfl
      _ = (y.1, y.2) := by rw [this, hxy]
      _ = y := rfl
  have hLnodup : r.enabledSorted.Nodup := hLperm.symm.nodup hsnd_nodup
  have hregFL : regF ∈ r.enabledSorted :=
    hLperm.symm.subset (List.mem_map_of_mem Prod.snd hmem)
  obtain ⟨l1, l2, hsplit⟩ := List.append_of_mem hregFL
  refine ⟨l1, l2, hsplit, ?_⟩
  intro a ha
  have haL : a ∈ r.enabledSorted := by
    rw [hsplit]
    exact List.mem_append.mpr (Or.inl ha)
  have haM : a ∈ r.extractors.map Prod.snd := hLperm.subset haL
  obtain ⟨p, hp, hpa⟩ := List.mem_map.mp haM
  have hregFnotmem : regF ∉ l1 := by
    have hnd' := hsplit ▸ hLnodup
    rw [List.nodup_append] at hnd'
    exact fun hc => hnd'.2.2 hc (List.mem_cons_self _ _)
  have hpk : p.1 ≠ k := by
    intro hk
    have hpp : (k, p.2) ∈ r.extractors := by
      have : p = (k, p.2) := by
        cases p; simp only at hk; simp [hk]
      rw [← this]; exact hp
    have : p.2 = regF := keyUnique hnd hpp hmem
    rw [this] at hpa
    exact hregFnotmem (hpa ▸ ha)
  have := hok p hp hpk
  rw [hpa] at this
  exact this

/-- Claim C4: with `continueOnError: false`, the first per-unit execution
error makes `execute` reject with the failing unit's thrown error — the
caller gets an exception and no (even partial) report. -/
theorem execute_aborts_on_error
    (r : ExtractorRegistry) (lifelogs : List Lifelog) (env : Env)
    (wallTime : Nat) (nowIso : String)
    (hWF : r.WF) (hinit : r.initialized = true)
    (hcoe : r.config.continueOnError = false)
    (hN : 2 ≤ r.extractors.length)
    (hall : ∀ p ∈ r.extractors, p.2.config.enabled = true)
    (k : String) (regF : RegisteredExtractor)
    (hmem : (k, regF) ∈ r.extractors)
    (msg : String)
    (hthrow : regF.extractor.extract lifelogs env regF.config
      = .rejects (.errObj msg) 0)
    (htm : 0 < r.config.extractorTimeout)
    (hok : ∀ p ∈ r.extractors, p.1 ≠ k →
      (executeWithTimeout (p.2.extractor.extract lifelogs env p.2.config)
        r.config.extractorTimeout).isOk = true) :
    r.execute lifelogs env wallTime nowIso = .error (.errObj msg) := by
  have hbad : executeWithTimeout (regF.extractor.extract lifelogs env regF.config)
      r.config.extractorTimeout = .error (.errObj msg) := by
    rw [hthrow]
    simp [executeWithTimeout, htm]
  obtain ⟨l1, l2, hsplit, hpre⟩ :=
    enabled_split_of_single r lifelogs env ⟨hWF.1, hWF.2⟩ hall k regF hmem hok
  have habort := runUnits_abort lifelogs env r.config.extractorTimeout nowIso
    l1 l2 regF (.errObj msg) hpre hbad [] [] []
  have hx : r.execute lifelogs env wallTime nowIso
      = executeCore r lifelogs env wallTime nowIso := by
    simp [ExtractorRegistry.execute, hinit]
  rw [hx]
  unfold executeCore
  rw [hcoe, hsplit, habort]

/-- Witness for C4: same three units, `continueOnError: false` — `execute`
rejects with F's own error even though A (higher priority) already
succeeded. -/
theorem execute_aborts_on_error_witness :
    (regWithFailure false).execute [] sampleEnv 7 "T" = .error (.errObj "boom") := by
  exact execute_aborts_on_error (regWithFailure false) [] sampleEnv 7 "T"
    (by decide) rfl rfl (by decide)
    (by intro p hp
        rcases List.mem_cons.mp hp with h | hp2
        · subst h; rfl
        rcases List.mem_cons.mp hp2 with h | hp3
        · subst h; rfl
        rcases List.mem_cons.mp hp3 with h | hp4
        · subst h; rfl
        · simp at hp4)
    "F" (entryOf unitF).2
    (List.mem_cons_of_mem _ (List.mem_cons_self _ _))
    "boom" rfl (by decide)
    (by intro p hp hne
        rcases List.mem_cons.mp hp with h | hp2
        · subst h; rfl
        rcases List.mem_cons.mp hp2 with h | hp3
        · exact absurd (by rw [h]; rfl) hne
        rcases List.mem_cons.mp hp3 with h | hp4
        · subst h; rfl
        · simp at hp4)

/-- Claim C5: a unit whose `extract` never settles is raced against the
`extractorTimeout` timer; under `continueOnError: true` it yields an `errors`
entry whose message is the timeout message (distinct from a domain error's),
while every other unit still completes and lands in `results`. -/
theorem execute_timeout_isolation
    (r : ExtractorRegistry) (lifelogs : List Lifelog) (env : Env)
    (wallTime : Nat) (nowIso : String)
    (hWF : r.WF) (hinit : r.initialized = true)
    (hcoe : r.config.continueOnError = true)
    (hall : ∀ p ∈ r.extractors, p.2.config.enabled = true)
    (k : String) (regH : RegisteredExtractor)
    (hmem : (k, regH) ∈ r.extractors)
    (hhang : regH.extractor.extract lifelogs env regH.config = .hangs)
    (hok : ∀ p ∈ r.extractors, p.1 ≠ k →
      (executeWithTimeout (p.2.extractor.extract lifelogs env p.2.config)
        r.config.extractorTimeout).isOk = true) :
    ∃ r2 report calls,
      r.execute lifelogs env wallTime nowIso = .ok (r2, report, calls) ∧
      report.errors
        = [{ extractorId := k
             message := timeoutMessage r.config.extractorTimeout
             originalError := some (timeoutMessage r.config.extractorTimeout)
             context := { logCount := lifelogs.length, timestamp := nowIso } }] ∧
      ∀ p ∈ r.extractors, p.1 ≠ k → p.1 ∈ resultIds report := by
  have hbad : executeWithTimeout (regH.extractor.extract lifelogs env regH.config)
      r.config.extractorTimeout
      = .error (.errObj (timeoutMessage r.config.extractorTimeout)) := by
    rw [hhang]
    rfl
  obtain ⟨r2, report, calls, hx, herr, -, hres⟩ :=
    single_error_execution r lifelogs env wallTime nowIso ⟨hWF.1, hWF.2⟩ hinit
      hcoe hall k regH hmem _ hbad hok
  exact ⟨r2, report, calls, hx, by rw [herr]; rfl, hres⟩

/-- Witness for C5: the hanging unit H times out after the 500 ms budget; A
and C still succeed. -/
theorem execute_timeout_isolation_witness :
    ∃ r2 report calls,
      regWithHang.execute [] sampleEnv 7 "T" = .ok (r2, report, calls) ∧
      report.errors
        = [{ extractorId := "H"
             message := "Execution timed out after 500ms"
             originalError := some "Execution timed out after 500ms"
             context := { logCount := 0, timestamp := "T" } }] ∧
      ("A" ∈ resultIds report ∧ "C" ∈ resultIds report) := by
  obtain ⟨r2, report, calls, hx, herr, hres⟩ :=
    execute_timeout_isolation regWithHang [] sampleEnv 7 "T"
      (by decide) rfl rfl
      (by intro p hp
          rcases List.mem_cons.mp hp with h | hp2
          · subst h; rfl
          rcases List.mem_cons.mp hp2 with h | hp3
          · subst h; rfl
          rcases List.mem_cons.mp hp3 with h | hp4
          · subst h; rfl
          · simp at hp4)
      "H" (entryOf unitH).2
      (List.mem_cons_of_mem _ (List.mem_cons_self _ _))
      rfl
      (by intro p hp hne
          rcases List.mem_cons.mp hp with h | hp2
          · subst h; rfl
          rcases List.mem_cons.mp hp2 with h | hp3
          · exact absurd (by rw [h]; rfl) hne
          rcases List.mem_cons.mp hp3 with h | hp4
          · subst h; rfl
          · simp at hp4)
  refine ⟨r2, report, calls, hx, herr, ?_, ?_⟩
  · exact hres (entryOf unitA) (List.mem_cons_self _ _) (by decide)
  · exact hres (entryOf unitC)
      (List.mem_cons_of_mem _ (List.mem_cons_of_mem _ (List.mem_cons_self _ _)))
      (by decide)

/-- A single-unit, not yet initialized registry under default options. -/
def regOne : ExtractorRegistry :=
  ⟨[entryOf unitA], defaultRegistryConfig, false⟩

/-- Claim C6: `register` fails — leaving the registry without the unit and
unchanged — exactly when the candidate fails the structural `isBaseExtractor`
check, its id is already registered (the earlier registration is kept, exactly
one entry remains for the id), or the merged configuration fails the unit's
`validateConfig` (whose reason string is surfaced in the error message). -/
theorem register_failure_gate
    (r : ExtractorRegistry) (o : ExtractorCandidate) (cfg : Option ConfigPatch)
    (now : Nat) (hWF : r.WF) :
    ((∃ e, r.register o cfg now = .error e) ↔
      (isBaseExtractor o = false ∨ r.hasId (toBase o).id = true ∨
       ∃ reason, (toBase o).validateConfig (effectiveConfig r (toBase o) cfg)
         = some reason)) ∧
    (∀ e, r.register o cfg now = .error e →
      (isBaseExtractor o = false →
        e = "Invalid extractor: must implement BaseExtractor interface") ∧
      (isBaseExtractor o = true → r.hasId (toBase o).id = true →
        e = "Extractor with id '" ++ (toBase o).id ++ "' is already registered" ∧
        (r.getRegisteredExtractors.filter
          (fun info => info.id == (toBase o).id)).length = 1) ∧
      (isBaseExtractor o = true → r.hasId (toBase o).id = false →
        (∃ reason,
          (toBase o).validateConfig (effectiveConfig r (toBase o) cfg)
            = some reason ∧
          e = "Invalid configuration for extractor '" ++ (toBase o).id
              ++ "': " ++ reason) ∧
        (toBase o).id ∉ r.getRegisteredExtractors.map ExtractorInfo.id)) := by
  obtain ⟨hnd, hkey⟩ := hWF
  have hidsfst : r.getRegisteredExtractors.map ExtractorInfo.id
      = r.extractors.map Prod.fst := by
    unfold ExtractorRegistry.getRegisteredExtractors
    rw [List.map_map]
    refine List.map_congr_left ?_
    intro p hp
    exact (hkey p hp).symm
  have hcount1 : r.hasId (toBase o).id = true →
      (r.getRegisteredExtractors.filter
        (fun info => info.id == (toBase o).id)).length = 1 := by
    intro hd
    unfold ExtractorRegistry.getRegisteredExtractors
    rw [List.filter_map, List.length_map]
    have hcongr : ∀ p ∈ r.extractors,
        ((fun info => info.id == (toBase o).id) ∘
          (fun p : String × RegisteredExtractor =>
            ({ id := p.2.extractor.id, name := p.2.extractor.name
               description := p.2.extractor.description
               version := p.2.extractor.version
               config := p.2.config, initialized := p.2.initialized
               registeredAt := p.2.registeredAt } : ExtractorInfo))) p
          = (p.1 == (toBase o).id) := by
      intro p hp
      simp only [Function.comp]
      rw [← hkey p hp]
    rw [List.filter_congr hcongr]
    have hlen : (r.extractors.filter (fun p => p.1 == (toBase o).id)).length
        = (r.extractors.map Prod.fst).count (toBase o).id := by
      rw [List.count_eq_countP, List.countP_map, List.countP_eq_length_filter]
      rfl
    rw [hlen]
    obtain ⟨p, hp, hpe⟩ := List.any_eq_true.mp hd
    have hmemid : (toBase o).id ∈ r.extractors.map Prod.fst := by
      refine List.mem_map.mpr ⟨p, hp, ?_⟩
      exact (by simpa using hpe : p.1 = (toBase o).id)
    have h1 := List.nodup_iff_count_le_one.mp hnd (toBase o).id
    have h2 := List.count_pos_iff.mpr hmemid
    omega
  have habsent : r.hasId (toBase o).id = false →
      (toBase o).id ∉ r.getRegisteredExtractors.map ExtractorInfo.id := by
    intro hd
    rw [hidsfst]
    intro hc
    obtain ⟨p, hp, hpe⟩ := List.mem_map.mp hc
    have : r.hasId (toBase o).id = true :=
      List.any_eq_true.mpr ⟨p, hp, by simpa using hpe⟩
    rw [this] at hd
    cases hd
  by_cases hb : isBaseExtractor o
  · by_cases hd : r.hasId (toBase o).id
    · have hreg : r.register o cfg now
          = .error ("Extractor with id '" ++ (toBase o).id
            ++ "' is already registered") := by
        simp [ExtractorRegistry.register, hb, hd]
      refine ⟨?_, ?_⟩
      · constructor
        · intro _; exact Or.inr (Or.inl hd)
        · intro _; exact ⟨_, hreg⟩
      · intro e he
        rw [hreg] at he
        simp only [Except.error.injEq] at he
        refine ⟨?_, ?_, ?_⟩
        · intro hc; rw [hb] at hc; cases hc
        · intro _ _; exact ⟨he.symm, hcount1 hd⟩
        · intro _ hc; rw [hd] at hc; cases hc
    · have hd' : r.hasId (toBase o).id = false := by
        simpa using hd
      cases hv : (toBase o).validateConfig (effectiveConfig r (toBase o) cfg) with
      | none =>
        have hreg : r.register o cfg now = .ok { r with
            extractors := r.extractors ++
              [((toBase o).id,
                { extractor := toBase o
                  config := effectiveConfig r (toBase o) cfg
                  initialized := false, registeredAt := now })] } := by
          simp [ExtractorRegistry.register, hb, hd', hv]
        refine ⟨?_, ?_⟩
        · constructor
          · rintro ⟨e, he⟩
            rw [hreg] at he
            cases he
          · intro hcase
            rcases hcase with hc | hc | ⟨reason, hc⟩
            · rw [hb] at hc; cases hc
            · rw [hd'] at hc; cases hc
            · exact Option.noConfusion hc
        · intro e he
          rw [hreg] at he
          cases he
      | some reason =>
        have hreg : r.register o cfg now
            = .error ("Invalid configuration for extractor '" ++ (toBase o).id
              ++ "': " ++ reason) := by
          simp [ExtractorRegistry.register, hb, hd', hv]
        refine ⟨?_, ?_⟩
        · constructor
          · intro _; exact Or.inr (Or.inr ⟨reason, rfl⟩)
          · intro _; exact ⟨_, hreg⟩
        · intro e he
          rw [hreg] at he
          simp only [Except.error.injEq] at he
          refine ⟨?_, ?_, ?_⟩
          · intro hc; rw [hb] at hc; cases hc
          · intro _ hc; rw [hd'] at hc; cases hc
          · intro _ _; exact ⟨⟨reason, rfl, he.symm⟩, habsent hd'⟩
  · have hb' : isBaseExtractor o = false := by simpa using hb
    have hreg : r.register o cfg now
        = .error "Invalid extractor: must implement BaseExtractor interface" := by
      simp [ExtractorRegistry.register, hb']
    refine ⟨?_, ?_⟩
    · constructor
      · intro _; exact Or.inl hb'
      · intro _; exact ⟨_, hreg⟩
    · intro e he
      rw [hreg] at he
      simp only [Except.error.injEq] at he
      refine ⟨fun _ => he.symm, ?_, ?_⟩
      · intro hc; rw [hb'] at hc; cases hc
      · intro hc; rw [hb'] at hc; cases hc

/-- Witness for C6: registering a second unit with id `A` into `regOne` fails,
and exactly one entry with id `A` remains. -/
theorem register_failure_gate_witness :
    (∃ e, regOne.register unitA.toCandidate none 1 = .error e) ∧
    (regOne.getRegisteredExtractors.filter
      (fun info => info.id == (toBase unitA.toCandidate).id)).length = 1 := by
  have h := register_failure_gate regOne unitA.toCandidate none 1 (by decide)
  have hdup : (∃ e, regOne.register unitA.toCandidate none 1 = .error e) :=
    h.1.mpr (Or.inr (Or.inl (by decide)))
  obtain ⟨e, he⟩ := hdup
  exact ⟨⟨e, he⟩, ((h.2 e he).2.1 (by decide) (by decide)).2⟩

/-- The spec's reading of the configuration merge (§4.2): field by field, the
last layer that supplies the key wins, and a supplied `settings` value
replaces the whole sub-map. -/
def specMergedConfig (dflt : ExtractorConfig) (g ov : ConfigPatch) :
    ExtractorConfig :=
  { enabled := ov.enabled.getD (g.enabled.getD dflt.enabled)
    priority := ov.priority.getD (g.priority.getD dflt.priority)
    settings := ov.settings.getD (g.settings.getD dflt.settings) }

/-- Claim C7: the configuration stored by a successful `register` is the
strict-order shallow merge default < global < override, where a later layer
overwrites keys wholesale — in particular a `settings` value supplied by the
override replaces the entire sub-map. -/
theorem register_stores_layered_config
    (r : ExtractorRegistry) (o : ExtractorCandidate) (cfg : Option ConfigPatch)
    (now : Nat) (r2 : ExtractorRegistry)
    (h : r.register o cfg now = .ok r2) :
    r2.extractors = r.extractors ++
      [((toBase o).id,
        { extractor := toBase o, config := effectiveConfig r (toBase o) cfg
          initialized := false, registeredAt := now })] ∧
    effectiveConfig r (toBase o) cfg
      = specMergedConfig (toBase o).defaultConfig
          (r.config.globalConfig.getD ConfigPatch.empty)
          (cfg.getD ConfigPatch.empty) ∧
    (∀ p s, cfg = some p → p.settings = some s →
      (effectiveConfig r (toBase o) cfg).settings = s) := by
  refine ⟨?_, rfl, ?_⟩
  · by_cases hb : isBaseExtractor o
    · by_cases hd : r.hasId (toBase o).id
      · have hreg : r.register o cfg now
            = .error ("Extractor with id '" ++ (toBase o).id
              ++ "' is already registered") := by
          simp [ExtractorRegistry.register, hb, hd]
        exact Except.noConfusion (hreg.symm.trans h)
      · have hd' : r.hasId (toBase o).id = false := by simpa using hd
        cases hv : (toBase o).validateConfig (effectiveConfig r (toBase o) cfg) with
        | some reason =>
          have hreg : r.register o cfg now
              = .error ("Invalid configuration for extractor '" ++ (toBase o).id
                ++ "': " ++ reason) := by
            simp [ExtractorRegistry.register, hb, hd', hv]
          exact Except.noConfusion (hreg.symm.trans h)
        | none =>
          have hreg : r.register o cfg now = .ok { r with
              extractors := r.extractors ++
                [((toBase o).id,
                  { extractor := toBase o
                    config := effectiveConfig r (toBase o) cfg
                    initialized := false, registeredAt := now })] } := by
            simp [ExtractorRegistry.register, hb, hd', hv]
          rw [← Except.ok.inj (hreg.symm.trans h)]
    · have hb' : isBaseExtractor o = false := by simpa using hb
      have hreg : r.register o cfg now
          = .error "Invalid extractor: must implement BaseExtractor interface" := by
        simp [ExtractorRegistry.register, hb']
      exact Except.noConfusion (hreg.symm.trans h)
  · intro p s hp hs
    subst hp
    simp [effectiveConfig, mergeConfig, hs]

/-- A registry whose global overrides set priority 7 and a `g` settings map. -/
def regG : ExtractorRegistry :=
  ⟨[], { maxConcurrency := 5, extractorTimeout := 30000, continueOnError := true
         globalConfig := some ⟨none, some 7, some (some [("g", "1")])⟩ },
   false⟩

/-- A unit whose defaults carry a two-key settings map. -/
def unitS : BaseExtractor :=
  { mkUnit "S" 10 (.resolves (sampleResult "s") 1) with
    defaultConfig :=
      { enabled := true, priority := 10
        settings := some [("a", "1"), ("b", "2")] } }

/-- A per-registration override supplying only `settings`. -/
def ovPatch : ConfigPatch := ⟨none, none, some (some [("c", "3")])⟩

/-- The registry produced by registering `unitS` into `regG` with
`ovPatch`. -/
def regAfterS : ExtractorRegistry :=
  ((regG.register unitS.toCandidate (some ovPatch) 5).toOption).getD
    (ExtractorRegistry.new defaultRegistryConfig)

/-- Witness for C7: the override's `settings` replaces the default (and
global) maps wholesale, while the global priority survives since the override
does not supply one. -/
theorem register_stores_layered_config_witness :
    regG.register unitS.toCandidate (some ovPatch) 5 = .ok regAfterS ∧
    (effectiveConfig regG (toBase unitS.toCandidate) (some ovPatch)).settings
      = some [("c", "3")] ∧
    (effectiveConfig regG (toBase unitS.toCandidate) (some ovPatch)).priority
      = 7 := by
  have hreg : regG.register unitS.toCandidate (some ovPatch) 5 = .ok regAfterS := rfl
  have h := register_stores_layered_config regG unitS.toCandidate (some ovPatch)
    5 regAfterS hreg
  exact ⟨hreg, h.2.2 ovPatch (some [("c", "3")]) rfl rfl, rfl⟩

/-- Claim C8: admission order is enabled-filter + stable descending priority
sort: A (50), B (150), C (100) registered in that order under
`maxConcurrency: 1` start in the order B, C, A — both in the scheduling trace
and in the invocation trace of `execute` — and equal-priority units D, E keep
registration order. -/
theorem execute_priority_admission :
    startedIds (regABC.executeSchedule [] sampleEnv) = ["B", "C", "A"] ∧
    (∃ r2 report, regABC.execute [] sampleEnv 0 "T"
      = .ok (r2, report, ["B", "C", "A"])) ∧
    startedIds (regDE.executeSchedule [] sampleEnv) = ["D", "E"] := by
  exact ⟨rfl, ⟨_, _, rfl⟩, rfl⟩

/-! Lemmas for the concurrency-window property. -/

theorem pickEarliest_length (x : String × Nat) :
    ∀ l : List (String × Nat), ((pickEarliest x l).2).length = l.length := by
  intro l
  induction l generalizing x with
  | nil => rfl
  | cons y ys ih =>
    by_cases h : y.2 < x.2 <;> simp [pickEarliest, h, ih]

theorem hasStart_map_settle (l : List (String × Nat)) :
    hasStart (l.map (fun z => SchedEvent.settle z.1)) = false := by
  induction l with
  | nil => rfl
  | cons z zs ih => simpa [hasStart] using ih

theorem hasStart_drainAll (l : List (String × Nat)) :
    hasStart (drainAll l) = false :=
  hasStart_map_settle _

theorem inflightBounded_of_no_start (m : Nat) :
    ∀ es, hasStart es = false → ∀ n, inflightBounded m n es = true := by
  intro es
  induction es with
  | nil => intro _ n; rfl
  | cons e rest ih =>
    cases e with
    | start id => intro hna; simp [hasStart] at hna
    | settle id =>
      intro hna n
      simp only [hasStart] at hna
      simp [inflightBounded, ih hna]

theorem headOk_of_no_start :
    ∀ es, hasStart es = false → headOk es = true := by
  intro es h
  cases es with
  | nil => rfl
  | cons e rest =>
    cases e with
    | start id => simp [hasStart] at h
    | settle id =>
      simp only [hasStart] at h
      simp [headOk, h]

theorem settleFreesSlot_of_no_start :
    ∀ es, hasStart es = false → settleFreesSlot es = true := by
  intro es
  induction es with
  | nil => intro _; rfl
  | cons e rest ih =>
    cases e with
    | start id => intro hna; simp [hasStart] at hna
    | settle id =>
      intro hna
      simp only [hasStart] at hna
      simp only [settleFreesSlot]
      rw [ih hna, headOk_of_no_start rest hna]
      rfl

theorem settleFreesSlot_start_cons (i : String) (es : List SchedEvent) :
    settleFreesSlot (SchedEvent.start i :: es) = settleFreesSlot es := rfl

theorem settleFreesSlot_settle_cons (i : String) (es : List SchedEvent) :
    settleFreesSlot (SchedEvent.settle i :: es)
      = (headOk es && settleFreesSlot es) := rfl

theorem headOk_schedLoop_cons (m : Nat) (t : SimTask) (rest : List SimTask)
    (fl : List (String × Nat)) (time : Nat) :
    headOk (schedLoop m (t :: rest) fl time) = true := rfl

theorem schedLoop_bounded (m : Nat) :
    ∀ (queue : List SimTask) (fl : List (String × Nat)) (time : Nat),
      fl.length < m →
      inflightBounded m fl.length (schedLoop m queue fl time) = true := by
  intro queue
  induction queue with
  | nil =>
    intro fl time _
    exact inflightBounded_of_no_start m _ (hasStart_drainAll fl) _
  | cons t rest ih =>
    intro fl time h
    simp only [schedLoop]
    by_cases hfull : m ≤ fl.length + 1
    · rw [if_pos hfull]
      cases fl with
      | nil =>
        simp only [inflightBounded, List.length_nil]
        have h1 : 0 + 1 ≤ m := by omega
        have hrec := ih [] (t.id, time + t.finishAfter).2 (by simpa using h)
        simp only [List.length_nil] at hrec
        simp [h1, hrec]
      | cons z zs =>
        have hwlen : ((pickEarliest z (zs ++ [(t.id, time + t.finishAfter)])).2).length
            = zs.length + 1 := by
          rw [pickEarliest_length]
          simp
        have hlt : ((pickEarliest z (zs ++ [(t.id, time + t.finishAfter)])).2).length < m := by
          rw [hwlen]
          simpa using h
        have hrec := ih _ (pickEarliest z (zs ++ [(t.id, time + t.finishAfter)])).1.2 hlt
        rw [hwlen] at hrec
        simp only [inflightBounded, List.length_cons]
        have h1 : zs.length + 1 + 1 ≤ m := by
          simp only [List.length_cons] at h
          omega
        simp only [Nat.add_sub_cancel]
        simp [h1, hrec]
    · rw [if_neg hfull]
      have hlt : (fl ++ [(t.id, time + t.finishAfter)]).length < m := by
        simp only [List.length_append, List.length_cons, List.length_nil]
        omega
      have hrec := ih _ time hlt
      simp only [List.length_append, List.length_cons, List.length_nil] at hrec
      simp only [inflightBounded]
      have h1 : fl.length + 1 ≤ m := by omega
      simp [h1]
      simpa using hrec

theorem schedLoop_slides (m : Nat) :
    ∀ (queue : List SimTask) (fl : List (String × Nat)) (time : Nat),
      settleFreesSlot (schedLoop m queue fl time) = true := by
  intro queue
  induction queue with
  | nil =>
    intro fl time
    exact settleFreesSlot_of_no_start _ (hasStart_drainAll fl)
  | cons t rest ih =>
    intro fl time
    simp only [schedLoop]
    by_cases hfull : m ≤ fl.length + 1
    · rw [if_pos hfull]
      rw [settleFreesSlot_start_cons, settleFreesSlot_settle_cons]
      cases rest with
      | nil =>
        simp only [schedLoop]
        rw [headOk_of_no_start _ (hasStart_drainAll _),
          settleFreesSlot_of_no_start _ (hasStart_drainAll _)]
        rfl
      | cons t2 rest2 =>
        rw [headOk_schedLoop_cons, ih]
        rfl
    · rw [if_neg hfull]
      rw [settleFreesSlot_start_cons]
      exact ih _ _

/-- Claim C9: during `execute`, at no point are more than `maxConcurrency`
units simultaneously in flight, and admission is sliding-window: each
settlement is immediately followed by the admission of the next queued unit
whenever one remains. -/
theorem execute_concurrency_window
    (r : ExtractorRegistry) (lifelogs : List Lifelog) (env : Env)
    (h : 1 ≤ r.config.maxConcurrency) :
    inflightBounded r.config.maxConcurrency 0
      (r.executeSchedule lifelogs env) = true ∧
    settleFreesSlot (r.executeSchedule lifelogs env) = true := by
  constructor
  · have hb := schedLoop_bounded r.config.maxConcurrency
      (r.enabledSorted.map (fun reg =>
        { id := reg.extractor.id
          finishAfter := taskDuration r.config.extractorTimeout
            (reg.extractor.extract lifelogs env reg.config) }))
      [] 0 (by simpa using h)
    simpa [ExtractorRegistry.executeSchedule] using hb
  · have hs := schedLoop_slides r.config.maxConcurrency
      (r.enabledSorted.map (fun reg =>
        { id := reg.extractor.id
          finishAfter := taskDuration r.config.extractorTimeout
            (reg.extractor.extract lifelogs env reg.config) }))
      [] 0
    simpa [ExtractorRegistry.executeSchedule] using hs

/-- Witness for C9: the three-unit registry with `maxConcurrency: 2` respects
the window and the sliding admission policy. -/
theorem execute_concurrency_window_witness :
    1 ≤ regWithHang.config.maxConcurrency ∧
    inflightBounded regWithHang.config.maxConcurrency 0
      (regWithHang.executeSchedule [] sampleEnv) = true ∧
    settleFreesSlot (regWithHang.executeSchedule [] sampleEnv) = true := by
  have h := execute_concurrency_window regWithHang [] sampleEnv (by decide)
  exact ⟨by decide, h.1, h.2⟩

/-- A registry initialization pass is a no-op when every unit with an
`initialize` method already has its flag set. -/
theorem initUnits_idle (env : Env) :
    ∀ l : List (String × RegisteredExtractor),
      (∀ p ∈ l, (p.2.extractor.init).isSome → p.2.initialized = true) →
      initUnits env l = (l, [], none) := by
  intro l
  induction l with
  | nil => intro _; rfl
  | cons q rest ih =>
    intro hcond
    have hq : initUnit env q.1 q.2 = (q.2, [], none) := by
      unfold initUnit
      cases hm : q.2.extractor.init with
      | none => rfl
      | some f =>
        have : q.2.initialized = true :=
          hcond q (List.mem_cons_self _ _) (by simp [hm])
        simp [this]
    have hrest := ih (fun p hp => hcond p (List.mem_cons_of_mem _ hp))
    simp [initUnits, hq, hrest]

/-- Claim C10: after a successful registry-wide initialization pass the
registry-wide flag is set; a unit without an `initialize` method keeps its
per-unit flag (so is still reported `initialized = false` when freshly
registered), a unit with one is reported `initialized = true`, and a second
pass invokes no unit's `initialize` and changes nothing. -/
theorem initAll_flag_semantics
    (r : ExtractorRegistry) (env : Env)
    (hok : (initUnits env r.extractors).2.2 = none) :
    (r.initAll env).1.initialized = true ∧
    (r.initAll env).1.extractors
      = r.extractors.map (fun p =>
          (p.1, { p.2 with
                  initialized := p.2.initialized || (p.2.extractor.init).isSome })) ∧
    (r.initAll env).1.getRegisteredExtractors
      = r.extractors.map (fun p =>
          { id := p.2.extractor.id, name := p.2.extractor.name
            description := p.2.extractor.description
            version := p.2.extractor.version
            config := p.2.config
            initialized := p.2.initialized || (p.2.extractor.init).isSome
            registeredAt := p.2.registeredAt }) ∧
    ((r.initAll env).1.initAll env).2.1 = [] ∧
    ((r.initAll env).1.initAll env).1 = (r.initAll env).1 := by
  have hR : (r.initAll env).1
      = { r with extractors := (initUnits env r.extractors).1,
                 initialized := true } := by
    simp [ExtractorRegistry.initAll, hok]
  have hext : (r.initAll env).1.extractors
      = r.extractors.map (fun p =>
          (p.1, { p.2 with
                  initialized := p.2.initialized || (p.2.extractor.init).isSome })) := by
    rw [hR]
    show (initUnits env r.extractors).1 = _
    rw [initUnits_fst]
    refine List.map_congr_left ?_
    intro p hp
    rw [initUnit_flag_of_ok env p.1 p.2 (initUnits_none_elem env r.extractors hok p hp)]
  have hflag : (r.initAll env).1.initialized = true := by rw [hR]
  have hidlecond : ∀ p ∈ (r.initAll env).1.extractors,
      (p.2.extractor.init).isSome → p.2.initialized = true := by
    rw [hext]
    intro p hp hsome
    obtain ⟨q, hq, hqp⟩ := List.mem_map.mp hp
    rw [← hqp] at hsome ⊢
    simp only at hsome ⊢
    rw [hsome]
    simp
  have hidle := initUnits_idle env (r.initAll env).1.extractors hidlecond
  have heta : ∀ s : ExtractorRegistry, s.initialized = true →
      ({ s with extractors := s.extractors, initialized := true }
        : ExtractorRegistry) = s := by
    intro s hs
    cases s
    simp_all
  have houter : ∀ s : ExtractorRegistry,
      initUnits env s.extractors = (s.extractors, [], none) →
      s.initAll env
        = ({ s with extractors := s.extractors, initialized := true }, [], none) := by
    intro s hs
    unfold ExtractorRegistry.initAll
    rw [hs]
  refine ⟨hflag, hext, ?_, ?_, ?_⟩
  · unfold ExtractorRegistry.getRegisteredExtractors
    rw [hext, List.map_map]
    refine List.map_congr_left ?_
    intro p _
    rfl
  · rw [houter _ hidle]
  · rw [houter _ hidle]
    exact heta _ hflag

/-- A unit with a succeeding `initialize` method. -/
def unitI : BaseExtractor :=
  { mkUnit "I" 10 (.resolves (sampleResult "i") 1) with
    init := some (fun _ => none) }

/-- A fresh registry with one method-less unit (A) and one unit with an
`initialize` method (I). -/
def regInit : ExtractorRegistry :=
  ⟨[entryOf unitA, entryOf unitI], cfgWith 5 30000 true, false⟩

/-- Witness for C10: the pass succeeds, sets the registry-wide flag, reports
A still uninitialized and I initialized, and a second pass invokes nothing. -/
theorem initAll_flag_semantics_witness :
    (initUnits sampleEnv regInit.extractors).2.2 = none ∧
    (regInit.initAll sampleEnv).1.initialized = true ∧
    ((regInit.initAll sampleEnv).1.initAll sampleEnv).2.1 = [] ∧
    ((regInit.initAll sampleEnv).1.getRegisteredExtractors.map
      ExtractorInfo.initialized) = [false, true] := by
  have h := initAll_flag_semantics regInit sampleEnv rfl
  refine ⟨rfl, h.1, h.2.2.2.1, ?_⟩
  rw [h.2.2.1]
  rfl

/-- Witness for C1: the mixed success/failure registry completes normally and
the counts add up. -/
theorem execute_exhaustive_accounting_witness :
    ∃ r2 report calls,
      (regWithFailure true).execute [] sampleEnv 7 "T" = .ok (r2, report, calls) ∧
      report.summary.successCount + report.summary.errorCount
          + report.summary.disabledCount
        = report.summary.totalExtractors := by
  refine ⟨_, _, _, rfl, ?_⟩
  exact (execute_exhaustive_accounting (regWithFailure true) [] sampleEnv 7 "T"
    _ _ _ rfl).1

end LifelogEmail
